import Mathlib

/-!
# Folder Friend bookmarks keeper: the popup's `BookmarkManager`

A shallow embedding of `src/popup.js`.  The class `BookmarkManager` keeps a flat
snapshot (`folders`, `bookmarks`) of the host bookmark tree, computes the visible
items of the current folder, resolves the breadcrumb path and wraps the create,
delete, export and import requests to the host bookmark store.

Conventions of the embedding:

* a JavaScript property that may be absent (`undefined`) is an `Option`;
* `this` is passed explicitly; a method returns the updated object;
* `while` loops take a fuel argument and return `none` when the fuel runs out;
* the host bookmark store (`chrome.bookmarks`) is a parameter `HostStore σ`; every
  call is recorded in a request log, a rejected promise is `none`;
* the DOM is reduced to what the methods read or decide on: the value of the folder
  name input, the modal flag, the focus request, the notifications and the downloads;
* built-ins whose tables are not part of the repository (`localeCompare`,
  `toLowerCase`) are fields of `Builtins`.
-/

namespace FolderFriend

/-! ## Host tree nodes -/

/-- A `BookmarkTreeNode` as returned by `chrome.bookmarks.getTree()` or read back from an
export document.  `leaf` is a node without a `children` property, `folder` a node whose
`children` property is an array (possibly empty). -/
inductive Node where
  | leaf (id : String) (title : Option String) (url : Option String) (dateAdded : Option Nat)
  | folder (id : String) (title : Option String) (url : Option String)
      (dateAdded : Option Nat) (children : List Node)

/-- Property `node.id`. -/
def Node.id : Node → String
  | .leaf i _ _ _ => i
  | .folder i _ _ _ _ => i

/-- Property `node.title`. -/
def Node.title : Node → Option String
  | .leaf _ t _ _ => t
  | .folder _ t _ _ _ => t

/-- Property `node.url`. -/
def Node.url : Node → Option String
  | .leaf _ _ u _ => u
  | .folder _ _ u _ _ => u

/-- Property `node.dateAdded`. -/
def Node.dateAdded : Node → Option Nat
  | .leaf _ _ _ d => d
  | .folder _ _ _ d _ => d

/-- Property `node.children`: `none` when the node has no such property. -/
def Node.children : Node → Option (List Node)
  | .leaf _ _ _ _ => none
  | .folder _ _ _ _ cs => some cs

/-- The JavaScript expression `s || d` for an optional string `s`: an absent and an empty
string are both falsy. -/
def orElse (s : Option String) (d : String) : String :=
  match s with
  | some t => if t = "" then d else t
  | none => d

/-- Truthiness of an optional string (`if (node.url)`, `item.url && ...`). -/
def truthy (s : Option String) : Bool :=
  match s with
  | some t => t != ""
  | none => false

/-! ## The in-memory snapshot -/

/-- The object `folderData` pushed on `this.folders`. -/
structure FolderData where
  id : String
  title : String
  parentId : Option String
  dateAdded : Option Nat
  children : List String
  deriving DecidableEq

/-- The object `bookmarkData` pushed on `this.bookmarks`. -/
structure BookmarkData where
  id : String
  title : String
  url : Option String
  parentId : Option String
  dateAdded : Option Nat
  deriving DecidableEq

/-- An element of the array built by `getCurrentFolderItems`: one of the objects of
`this.folders` or one of the objects of `this.bookmarks`. -/
inductive Item where
  | folder (f : FolderData)
  | bookmark (b : BookmarkData)
  deriving DecidableEq

/-- Property `item.id`. -/
def Item.id : Item → String
  | .folder f => f.id
  | .bookmark b => b.id

/-- Property `item.title`. -/
def Item.title : Item → String
  | .folder f => f.title
  | .bookmark b => b.title

/-- Property `item.parentId`. -/
def Item.parentId : Item → Option String
  | .folder f => f.parentId
  | .bookmark b => b.parentId

/-- Property `item.url`; a `folderData` object has none. -/
def Item.url : Item → Option String
  | .folder _ => none
  | .bookmark b => b.url

/-- The fields of `BookmarkManager` set by its constructor (apart from `elements`). -/
structure BookmarkManager where
  currentFolderId : String
  bookmarks : List BookmarkData
  folders : List FolderData
  filteredItems : List Item
  searchQuery : String

/-- The field values assigned at the start of the constructor. -/
def BookmarkManager.initial : BookmarkManager :=
  { currentFolderId := "1", bookmarks := [], folders := [], filteredItems := [],
    searchQuery := "" }

/-! ## `processBookmarkTree` -/

mutual
/-- The closure `processNode(node, parentId)` of `processBookmarkTree`. -/
def processNode : Node → Option String → BookmarkManager → BookmarkManager
  | .folder id title _ dateAdded children, parentId, m =>
      processChildren children id
        { m with folders := m.folders ++
            [{ id := id, title := orElse title "Untitled Folder", parentId := parentId,
               dateAdded := dateAdded, children := children.map Node.id }] }
  | .leaf id title url dateAdded, parentId, m =>
      { m with bookmarks := m.bookmarks ++
          [{ id := id, title := orElse title "Untitled", url := url, parentId := parentId,
             dateAdded := dateAdded }] }
/-- The loop `node.children.forEach(child => processNode(child, node.id))`. -/
def processChildren : List Node → String → BookmarkManager → BookmarkManager
  | [], _, m => m
  | child :: rest, id, m => processChildren rest id (processNode child (some id) m)
end

/-- The loop `tree.forEach(rootNode => processNode(rootNode))`; the parameter `parentId`
takes its default `null`. -/
def processRoots : List Node → BookmarkManager → BookmarkManager
  | [], m => m
  | rootNode :: rest, m => processRoots rest (processNode rootNode none m)

/-- Method `processBookmarkTree(tree)`. -/
def processBookmarkTree (m : BookmarkManager) (tree : List Node) : BookmarkManager :=
  processRoots tree { m with bookmarks := [], folders := [] }

/-! ## The view: `getCurrentFolderItems` and `filterAndRenderItems` -/

/-- Built-ins of the JavaScript runtime that depend on Unicode tables. -/
structure Builtins where
  /-- `a.localeCompare(b)`: negative, zero or positive. -/
  localeCompare : String → String → Int
  /-- `s.toLowerCase()`. -/
  toLowerCase : String → String

/-- The method `s.includes(q)`: `q` occurs in `s` as a contiguous run. -/
def includes (s q : String) : Bool :=
  s.data.tails.any (fun t => q.data.isPrefixOf t)

/-- Insertion of `a` in front of the first element that `a` does not have to follow. -/
def sortInsert {α : Type} (cmp : α → α → Int) (a : α) : List α → List α
  | [] => [a]
  | b :: l => if cmp a b ≤ 0 then a :: b :: l else b :: sortInsert cmp a l

/-- The method `Array.prototype.sort(cmp)`: `cmp a b > 0` asks for `a` after `b`.  The sort
is stable, so for a consistent comparator its result is the one of any stable sort. -/
def arraySort {α : Type} (cmp : α → α → Int) : List α → List α
  | [] => []
  | a :: l => sortInsert cmp a (arraySort cmp l)

/-- Truthiness of `this.folders.find(f => f.id === id)`. -/
def isFolderId (folders : List FolderData) (id : String) : Bool :=
  (folders.find? (fun f => f.id == id)).isSome

/-- The comparator passed to `sort` in `getCurrentFolderItems`. -/
def compareItems (js : Builtins) (folders : List FolderData) (a b : Item) : Int :=
  if isFolderId folders a.id && !isFolderId folders b.id then -1
  else if !isFolderId folders a.id && isFolderId folders b.id then 1
  else js.localeCompare a.title b.title

/-- The constant `folderItems` of `getCurrentFolderItems`. -/
def folderItems (m : BookmarkManager) : List FolderData :=
  m.folders.filter (fun folder => folder.parentId == some m.currentFolderId)

/-- The constant `bookmarkItems` of `getCurrentFolderItems`. -/
def bookmarkItems (m : BookmarkManager) : List BookmarkData :=
  m.bookmarks.filter (fun bookmark => bookmark.parentId == some m.currentFolderId)

/-- Method `getCurrentFolderItems()`. -/
def getCurrentFolderItems (js : Builtins) (m : BookmarkManager) : List Item :=
  arraySort (compareItems js m.folders)
    ((folderItems m).map Item.folder ++ (bookmarkItems m).map Item.bookmark)

/-- The predicate passed to `filter` in `filterAndRenderItems`. -/
def matchesSearch (js : Builtins) (searchQuery : String) (item : Item) : Bool :=
  includes (js.toLowerCase item.title) searchQuery ||
    (match item.url with
     | some u => u != "" && includes (js.toLowerCase u) searchQuery
     | none => false)

/-- Method `filterAndRenderItems()`, up to the call of `renderItems`, which only writes
the DOM. -/
def filterAndRenderItems (js : Builtins) (m : BookmarkManager) : BookmarkManager :=
  let currentFolderItems := getCurrentFolderItems js m
  if m.searchQuery != "" then
    { m with filteredItems := currentFolderItems.filter (matchesSearch js m.searchQuery) }
  else
    { m with filteredItems := currentFolderItems }

/-! ## The breadcrumb: `getBreadcrumbPath` -/

/-- An entry of the breadcrumb path. -/
structure Crumb where
  id : String
  title : String
  icon : String
  deriving DecidableEq

/-- The first entry of every path. -/
def homeCrumb : Crumb := { id := "1", title := "Home", icon := "🏠" }

/-- The entry made of a folder visited by the walk. -/
def folderCrumb (f : FolderData) : Crumb := { id := f.id, title := f.title, icon := "📁" }

/-- The lookup `this.folders.find(f => f.id === id)`; no `f.id` is strictly equal to
`null`. -/
def findFolder (folders : List FolderData) (id : Option String) : Option FolderData :=
  match id with
  | some i => folders.find? (fun f => f.id == i)
  | none => none

/-- The loop `while (currentFolder && currentFolder.id !== '1')` of `getBreadcrumbPath`:
`fuel` bounds the number of executions of the body, `none` means that the bound was
reached with the loop still running. -/
def parentWalk (folders : List FolderData) :
    Nat → Option FolderData → List Crumb → Option (List Crumb)
  | _, none, tempPath => some tempPath
  | 0, some currentFolder, tempPath =>
      if currentFolder.id = "1" then some tempPath else none
  | fuel + 1, some currentFolder, tempPath =>
      if currentFolder.id = "1" then some tempPath
      else parentWalk folders fuel (findFolder folders currentFolder.parentId)
        (folderCrumb currentFolder :: tempPath)

/-- Method `getBreadcrumbPath()`. -/
def getBreadcrumbPath (fuel : Nat) (m : BookmarkManager) : Option (List Crumb) :=
  if m.currentFolderId ≠ "1" then
    (parentWalk m.folders fuel (findFolder m.folders (some m.currentFolderId)) []).map
      (fun tempPath => homeCrumb :: tempPath)
  else
    some [homeCrumb]

/-! ## The host bookmark store and the popup -/

/-- The argument of `chrome.bookmarks.create`; without `url` the host makes a folder. -/
structure CreateDetails where
  parentId : String
  title : String
  url : Option String
  deriving DecidableEq

/-- A call of the popup to `chrome.bookmarks`. -/
inductive HostRequest where
  | getTree
  | create (details : CreateDetails)
  | removeTree (id : String)
  deriving DecidableEq

/-- The part of `chrome.bookmarks` used by the popup, over a store state `σ`.  A result
`none` is a rejected promise; `create` answers with the id of the node it made. -/
structure HostStore (σ : Type) where
  getTree : σ → Option (List Node)
  create : σ → CreateDetails → Option (String × σ)
  removeTree : σ → String → Option σ

/-- The second argument of `showNotification`. -/
inductive NotificationType where
  | success
  | error
  deriving DecidableEq

/-- A notification element appended to the document by `showNotification`. -/
structure Notification where
  message : String
  type : NotificationType
  deriving DecidableEq

/-- The object `exportData` of `exportBookmarks`. -/
structure ExportData where
  version : String
  exportDate : String
  bookmarks : List Node

/-- A file offered by `exportBookmarks`: the `download` attribute and the serialized
object. -/
structure Download where
  filename : String
  content : ExportData

/-- The value of `JSON.parse(text)` in `importBookmarks`, typed by the properties the
method reads; `bookmarks = none` is a document without a `bookmarks` property. -/
structure ImportData where
  version : Option String
  exportDate : Option String
  bookmarks : Option (List Node)

/-- The document read back from an export: `JSON.parse(JSON.stringify(exportData))`.
Serialization keeps strings, numbers and arrays and drops absent properties. -/
def ExportData.reparse (d : ExportData) : ImportData :=
  { version := some d.version, exportDate := some d.exportDate, bookmarks := some d.bookmarks }

/-- The readings of `new Date()` used by export and import. -/
structure Clock where
  /-- `new Date().toISOString()`. -/
  isoString : String
  /-- `new Date().toLocaleDateString()`. -/
  localeDateString : String

/-- The popup: the manager object, the host store with the log of the requests sent to
it, and the part of the document the methods touch. -/
structure Popup (σ : Type) where
  manager : BookmarkManager
  host : σ
  requests : List HostRequest
  notifications : List Notification
  consoleErrors : List String
  folderNameInput : String
  modalShown : Bool
  nameInputFocused : Bool
  downloads : List Download

/-- Method `showNotification(message, type)`. -/
def showNotification {σ : Type} (w : Popup σ) (message : String) (type : NotificationType) :
    Popup σ :=
  { w with notifications := w.notifications ++ [{ message := message, type := type }] }

/-- Method `showSuccess(message)`. -/
def showSuccess {σ : Type} (w : Popup σ) (message : String) : Popup σ :=
  showNotification w message .success

/-- Method `showError(message)`. -/
def showError {σ : Type} (w : Popup σ) (message : String) : Popup σ :=
  showNotification w message .error

/-- The call `console.error(label, error)`. -/
def consoleError {σ : Type} (w : Popup σ) (label : String) : Popup σ :=
  { w with consoleErrors := w.consoleErrors ++ [label] }

/-- Method `hideNewFolderModal()`. -/
def hideNewFolderModal {σ : Type} (w : Popup σ) : Popup σ :=
  { w with modalShown := false, folderNameInput := "" }

/-- Method `loadBookmarks()` (`updateStats` only writes the DOM). -/
def loadBookmarks {σ : Type} (js : Builtins) (H : HostStore σ) (w : Popup σ) : Popup σ :=
  let w := { w with requests := w.requests ++ [HostRequest.getTree] }
  match H.getTree w.host with
  | some bookmarkTree =>
      { w with manager := filterAndRenderItems js (processBookmarkTree w.manager bookmarkTree) }
  | none => showError (consoleError w "Error loading bookmarks:") "Failed to load bookmarks"

/-- White space and line terminators of ECMAScript, the characters removed by `trim`. -/
def isWhiteSpace (c : Char) : Bool :=
  let n := c.toNat
  n == 9 || n == 10 || n == 11 || n == 12 || n == 13 || n == 32 || n == 160 ||
  n == 5760 || (8192 ≤ n && n ≤ 8202) || n == 8232 || n == 8233 || n == 8239 ||
  n == 8287 || n == 12288 || n == 65279

/-- The method `s.trim()`. -/
def trim (s : String) : String :=
  String.mk ((s.data.dropWhile isWhiteSpace).reverse.dropWhile isWhiteSpace).reverse

/-- Method `createNewFolder()`. -/
def createNewFolder {σ : Type} (js : Builtins) (H : HostStore σ) (w : Popup σ) : Popup σ :=
  let folderName := trim w.folderNameInput
  if folderName = "" then
    { w with nameInputFocused := true }
  else
    let details : CreateDetails :=
      { parentId := w.manager.currentFolderId, title := folderName, url := none }
    let w := { w with requests := w.requests ++ [HostRequest.create details] }
    match H.create w.host details with
    | some (_, host) =>
        showSuccess (loadBookmarks js H (hideNewFolderModal { w with host := host }))
          "Folder created successfully!"
    | none => showError (consoleError w "Error creating folder:") "Failed to create folder"

/-- Method `deleteItem(itemId)`; `confirmed` is the answer of the `confirm` dialog. -/
def deleteItem {σ : Type} (js : Builtins) (H : HostStore σ) (confirmed : Bool)
    (itemId : String) (w : Popup σ) : Popup σ :=
  if !confirmed then w
  else
    let w := { w with requests := w.requests ++ [HostRequest.removeTree itemId] }
    match H.removeTree w.host itemId with
    | some host =>
        showSuccess (loadBookmarks js H { w with host := host }) "Item deleted successfully!"
    | none => showError (consoleError w "Error deleting item:") "Failed to delete item"

/-- The expression `new Date().toISOString().split('T')[0]`. -/
def isoDay (clock : Clock) : String :=
  String.mk (clock.isoString.data.takeWhile (fun c => c != 'T'))

/-- Method `exportBookmarks()`. -/
def exportBookmarks {σ : Type} (clock : Clock) (H : HostStore σ) (w : Popup σ) : Popup σ :=
  let w := { w with requests := w.requests ++ [HostRequest.getTree] }
  match H.getTree w.host with
  | some bookmarkTree =>
      let exportData : ExportData :=
        { version := "1.0", exportDate := clock.isoString, bookmarks := bookmarkTree }
      let a : Download :=
        { filename := "bookmarks-export-" ++ isoDay clock ++ ".json", content := exportData }
      showSuccess { w with downloads := w.downloads ++ [a] } "Bookmarks exported successfully!"
  | none =>
      showError (consoleError w "Error exporting bookmarks:") "Failed to export bookmarks"

mutual
/-- Method `importBookmarkNode(node, parentId)`; the flag is `false` when a request to
the host was rejected, which ends the import. -/
def importBookmarkNode {σ : Type} (H : HostStore σ) :
    Node → String → Popup σ → Popup σ × Bool
  | .folder _ title _ _ children, parentId, w =>
      let details : CreateDetails :=
        { parentId := parentId, title := orElse title "Imported Folder", url := none }
      let w := { w with requests := w.requests ++ [HostRequest.create details] }
      match H.create w.host details with
      | some (folderId, host) => importChildren H children folderId { w with host := host }
      | none => (w, false)
  | .leaf _ title url _, parentId, w =>
      match url with
      | some u =>
          if u = "" then (w, true)
          else
            let details : CreateDetails :=
              { parentId := parentId, title := orElse title "Imported Bookmark", url := some u }
            let w := { w with requests := w.requests ++ [HostRequest.create details] }
            match H.create w.host details with
            | some (_, host) => ({ w with host := host }, true)
            | none => (w, false)
      | none => (w, true)
/-- The loop `for (const child of node.children)` of `importBookmarkNode`. -/
def importChildren {σ : Type} (H : HostStore σ) :
    List Node → String → Popup σ → Popup σ × Bool
  | [], _, w => (w, true)
  | child :: rest, folderId, w =>
      match importBookmarkNode H child folderId w with
      | (w, true) => importChildren H rest folderId w
      | (w, false) => (w, false)
end

/-- The `catch` block of `importBookmarks`. -/
def importFailed {σ : Type} (w : Popup σ) : Popup σ :=
  showError (consoleError w "Error importing bookmarks:")
    "Failed to import bookmarks. Please check the file format."

/-- Method `importBookmarks(file)`.  `file = none` is a missing file, `some none` a file
whose text `JSON.parse` rejects, `some (some importData)` a parsed document. -/
def importBookmarks {σ : Type} (js : Builtins) (clock : Clock) (H : HostStore σ)
    (file : Option (Option ImportData)) (w : Popup σ) : Popup σ :=
  match file with
  | none => w
  | some none => importFailed w
  | some (some importData) =>
      match importData.bookmarks with
      | none => importFailed w
      | some bookmarks =>
          let details : CreateDetails :=
            { parentId := w.manager.currentFolderId,
              title := "Imported Bookmarks - " ++ clock.localeDateString, url := none }
          let w := { w with requests := w.requests ++ [HostRequest.create details] }
          match H.create w.host details with
          | none => importFailed w
          | some (importFolderId, host) =>
              match bookmarks.head? with
              | none => importFailed { w with host := host }
              | some node =>
                  match importBookmarkNode H node importFolderId { w with host := host } with
                  | (w, true) =>
                      showSuccess (loadBookmarks js H w) "Bookmarks imported successfully!"
                  | (w, false) => importFailed w

/-! ## A tree-shaped host store -/

/-- Modelled from the spec: the state of the host bookmark store, an external collaborator
of which the repository holds only the calls.  It is the rooted tree and the number of
ids handed out so far. -/
structure TreeStore where
  tree : List Node
  nextId : Nat

mutual
/-- Ids of all nodes of a subtree, in pre-order. -/
def nodeIds : Node → List String
  | .leaf id _ _ _ => [id]
  | .folder id _ _ _ children => id :: forestIds children
/-- Ids of all nodes of a forest, in pre-order. -/
def forestIds : List Node → List String
  | [] => []
  | n :: rest => nodeIds n ++ forestIds rest
end

mutual
/-- Ids of the folders of a subtree, in pre-order. -/
def nodeFolderIds : Node → List String
  | .leaf _ _ _ _ => []
  | .folder id _ _ _ children => id :: forestFolderIds children
/-- Ids of the folders of a forest, in pre-order. -/
def forestFolderIds : List Node → List String
  | [] => []
  | n :: rest => nodeFolderIds n ++ forestFolderIds rest
end

mutual
/-- The subtree with the nodes `ns` appended to the children of the folder whose id is
`parentId`. -/
def appendUnder (parentId : String) (ns : List Node) : Node → Node
  | .leaf id t u d => .leaf id t u d
  | .folder id t u d children =>
      if id = parentId then .folder id t u d (appendUnderForest parentId ns children ++ ns)
      else .folder id t u d (appendUnderForest parentId ns children)
/-- The forest with the nodes `ns` appended to the children of the folder whose id is
`parentId`. -/
def appendUnderForest (parentId : String) (ns : List Node) : List Node → List Node
  | [] => []
  | c :: rest => appendUnder parentId ns c :: appendUnderForest parentId ns rest
end

mutual
/-- The subtree without the descendants whose id is `id`. -/
def removeFrom (id : String) : Node → Node
  | .leaf i t u d => .leaf i t u d
  | .folder i t u d children => .folder i t u d (removeFromForest id children)
/-- The forest without the nodes whose id is `id`, at any depth. -/
def removeFromForest (id : String) : List Node → List Node
  | [] => []
  | c :: rest =>
      if c.id = id then removeFromForest id rest
      else removeFrom id c :: removeFromForest id rest
end

/-- Modelled from the spec: the host bookmark store of section 6, "tree retrieval (returns
the full rooted tree), node creation (parentId, title, optional url), recursive node
removal by id".  A created node gets the next unused id `mkId nextId` and becomes the last
child of its parent; creation under an id that is no folder and removal of an id that is
no node are rejected. -/
def treeStore (mkId : Nat → String) : HostStore TreeStore where
  getTree := fun s => some s.tree
  create := fun s details =>
    if details.parentId ∈ forestFolderIds s.tree then
      let id := mkId s.nextId
      let node : Node :=
        match details.url with
        | some u => .leaf id (some details.title) (some u) none
        | none => .folder id (some details.title) none none []
      some (id, { tree := appendUnderForest details.parentId [node] s.tree,
                  nextId := s.nextId + 1 })
    else none
  removeTree := fun s id =>
    if id ∈ forestIds s.tree then some { s with tree := removeFromForest id s.tree }
    else none

/-! ## Notions used in the statements -/

mutual
/-- Number of nodes of a subtree that expose a `children` array. -/
def folderCount : Node → Nat
  | .leaf _ _ _ _ => 0
  | .folder _ _ _ _ children => 1 + forestFolderCount children
/-- Number of nodes of a forest that expose a `children` array. -/
def forestFolderCount : List Node → Nat
  | [] => 0
  | n :: rest => folderCount n + forestFolderCount rest
end

mutual
/-- Number of nodes of a subtree without a `children` array. -/
def leafCount : Node → Nat
  | .leaf _ _ _ _ => 1
  | .folder _ _ _ _ children => forestLeafCount children
/-- Number of nodes of a forest without a `children` array. -/
def forestLeafCount : List Node → Nat
  | [] => 0
  | n :: rest => leafCount n + forestLeafCount rest
end

mutual
/-- Ids of the leaves of a subtree, in pre-order. -/
def nodeLeafIds : Node → List String
  | .leaf id _ _ _ => [id]
  | .folder _ _ _ _ children => forestLeafIds children
/-- Ids of the leaves of a forest, in pre-order. -/
def forestLeafIds : List Node → List String
  | [] => []
  | n :: rest => nodeLeafIds n ++ forestLeafIds rest
end

/-- The folder entry made of a node visited with the given parent id. -/
def folderEntry (n : Node) (parentId : Option String) : FolderData :=
  { id := n.id, title := orElse n.title "Untitled Folder", parentId := parentId,
    dateAdded := n.dateAdded, children := (n.children.getD []).map Node.id }

/-- The bookmark entry made of a node visited with the given parent id. -/
def bookmarkEntry (n : Node) (parentId : Option String) : BookmarkData :=
  { id := n.id, title := orElse n.title "Untitled", url := n.url, parentId := parentId,
    dateAdded := n.dateAdded }

mutual
/-- Folder entries of a subtree visited with the given parent id, in pre-order. -/
def nodeFolders : Node → Option String → List FolderData
  | .leaf _ _ _ _, _ => []
  | .folder id t u d children, parentId =>
      folderEntry (.folder id t u d children) parentId :: forestFolders children (some id)
/-- Folder entries of a forest whose roots are visited with the given parent id. -/
def forestFolders : List Node → Option String → List FolderData
  | [], _ => []
  | n :: rest, parentId => nodeFolders n parentId ++ forestFolders rest parentId
end

mutual
/-- Bookmark entries of a subtree visited with the given parent id, in pre-order. -/
def nodeBookmarks : Node → Option String → List BookmarkData
  | .leaf id t u d, parentId => [bookmarkEntry (.leaf id t u d) parentId]
  | .folder id _ _ _ children, _ => forestBookmarks children (some id)
/-- Bookmark entries of a forest whose roots are visited with the given parent id. -/
def forestBookmarks : List Node → Option String → List BookmarkData
  | [], _ => []
  | n :: rest, parentId => nodeBookmarks n parentId ++ forestBookmarks rest parentId
end

/-- The node exposes a `children` array (`if (node.children)`). -/
def Node.isFolder : Node → Bool
  | .leaf _ _ _ _ => false
  | .folder _ _ _ _ _ => true

/-- The tree of the example of section 8, below the root and the bookmarks bar of the
host: folder "Work" holding bookmark "Site1", followed by bookmark "Home". -/
def exampleTree : List Node :=
  [.folder "0" (some "") none none
    [.folder "1" (some "Bookmarks bar") none none
      [.folder "10" (some "Work") none none
         [.leaf "11" (some "Site1") (some "https://a.com") none],
       .leaf "12" (some "Home") (some "https://b.com") none]]]

/-- Every entry names as parent an id of `known` or of an entry in front of it. -/
def ParentsKnown : List String → List FolderData → Prop
  | _, [] => True
  | known, f :: rest =>
      (∀ q, f.parentId = some q → q ∈ known) ∧ ParentsKnown (f.id :: known) rest

mutual
/-- All nodes of a subtree, the root first (pre-order). -/
def subnodes : Node → List Node
  | .leaf id t u d => [.leaf id t u d]
  | .folder id t u d children => .folder id t u d children :: forestNodes children
/-- All nodes of a forest, in pre-order. -/
def forestNodes : List Node → List Node
  | [] => []
  | n :: rest => subnodes n ++ forestNodes rest
end

/-- The array `node.children`, empty for a node without one. -/
def Node.childList (n : Node) : List Node := n.children.getD []

/-- `IsLineage top cur ancestors`: `ancestors` lists the parent of `cur`, then the parent of
that parent and so on, and the last of them (or `cur` itself when there is none) is a
child of `top`.  So `cur` lies `ancestors.length + 1` levels below `top`. -/
def IsLineage (top : Node) : Node → List Node → Prop
  | cur, [] => cur ∈ top.childList
  | cur, a :: rest => cur ∈ a.childList ∧ IsLineage top a rest

/-- The parent of the node whose ancestors below `top` are listed. -/
def lineageParent (top : Node) : List Node → Node
  | [] => top
  | a :: _ => a

/-- The breadcrumb entry of a folder node. -/
def nodeCrumb (n : Node) : Crumb :=
  { id := n.id, title := orElse n.title "Untitled Folder", icon := "📁" }

/-- A tree with a folder two levels below the bookmarks bar. -/
def nestedTree : List Node :=
  [.folder "0" (some "") none none
    [.folder "1" (some "Bookmarks bar") none none
      [.folder "20" (some "Projects") none none
        [.folder "21" (some "Lean") none none
          [.leaf "22" (some "Docs") (some "https://lean-lang.org") none]]],
     .folder "2" (some "Other bookmarks") none none []]]

/-- The search condition in the words of section 4.2: the title contains the query, or
the item is a bookmark whose url contains it. -/
def searchHit (js : Builtins) (q : String) : Item → Bool
  | .folder f => includes (js.toLowerCase f.title) q
  | .bookmark b =>
      includes (js.toLowerCase b.title) q ||
        (match b.url with
         | some u => includes (js.toLowerCase u) q
         | none => false)

/-- Comparison of two character sequences by code points: -1, 0 or 1. -/
def compareCodes : List Char → List Char → Int
  | [], [] => 0
  | [], _ :: _ => -1
  | _ :: _, [] => 1
  | x :: xs, y :: ys =>
      if x.toNat < y.toNat then -1
      else if y.toNat < x.toNat then 1
      else compareCodes xs ys

/-- Lower case of the letters A to Z. -/
def lowerChar (c : Char) : Char :=
  if 65 ≤ c.toNat ∧ c.toNat ≤ 90 then Char.ofNat (c.toNat + 32) else c

/-- An instance of the built-ins on which examples are evaluated: comparison by code
points and lower case of the letters A to Z. -/
def plainBuiltins : Builtins where
  localeCompare := fun a b => compareCodes a.data b.data
  toLowerCase := fun s => String.mk (s.data.map lowerChar)

/-- An id scheme on which examples are evaluated: decimal numerals. -/
def decimalId (n : Nat) : String := toString n

/-- Readings of the clock on which examples are evaluated. -/
def exampleClock : Clock :=
  { isoString := "2024-05-01T12:00:00.000Z", localeDateString := "5/1/2024" }

/-- A popup right after the constructor assigned its fields, before the first load has
answered, over a host that holds `exampleTree`. -/
def examplePopup : Popup TreeStore :=
  { manager := BookmarkManager.initial,
    host := { tree := exampleTree, nextId := 100 },
    requests := [], notifications := [], consoleErrors := [],
    folderNameInput := "", modalShown := false, nameInputFocused := false,
    downloads := [] }

/-- Export followed by the import of the document just offered for download. -/
def exportThenImport {σ : Type} (js : Builtins) (clock : Clock) (H : HostStore σ)
    (w : Popup σ) : Popup σ :=
  match (exportBookmarks clock H w).downloads.getLast? with
  | some a =>
      importBookmarks js clock H (some (some a.content.reparse)) (exportBookmarks clock H w)
  | none => exportBookmarks clock H w

mutual
/-- Two subtrees have the same shape, the same title at every folder and the same title
and url at every bookmark, in the same child order; ids and dates are not compared. -/
def sameShape : Node → Node → Bool
  | .leaf _ t u _, .leaf _ t2 u2 _ => t == t2 && u == u2
  | .leaf _ _ _ _, .folder _ _ _ _ _ => false
  | .folder _ _ _ _ _, .leaf _ _ _ _ => false
  | .folder _ t _ _ children, .folder _ t2 _ _ children2 =>
      t == t2 && sameShapeForest children children2
/-- Two forests have the same length and subtrees of the same shape at each position. -/
def sameShapeForest : List Node → List Node → Bool
  | [], [] => true
  | [], _ :: _ => false
  | _ :: _, [] => false
  | a :: rest, b :: rest2 => sameShape a b && sameShapeForest rest rest2
end

mutual
/-- What an import is to recreate of a subtree: its folders, titled as in the document or
"Imported Folder" when the title is empty or absent, and its leaves that have a non-empty
url, titled as in the document or "Imported Bookmark" when the title is empty or absent;
a leaf without url is left out. -/
def expectedNode : Node → List Node
  | .leaf id t u d =>
      if truthy u then [.leaf id (some (orElse t "Imported Bookmark")) u d] else []
  | .folder id t _ d children =>
      [.folder id (some (orElse t "Imported Folder")) none d (expectedForest children)]
/-- What an import is to recreate of a forest. -/
def expectedForest : List Node → List Node
  | [] => []
  | c :: rest => expectedNode c ++ expectedForest rest
end

mutual
/-- The nodes a tree-shaped host holds after the import of a subtree, when the next
unused id number is `k`, together with the next unused id number afterwards. -/
def importedNode (mkId : Nat → String) : Node → Nat → List Node × Nat
  | .leaf _ t u _, k =>
      if truthy u then ([.leaf (mkId k) (some (orElse t "Imported Bookmark")) u none], k + 1)
      else ([], k)
  | .folder _ t _ _ children, k =>
      ([.folder (mkId k) (some (orElse t "Imported Folder")) none none
          (importedForest mkId children (k + 1)).1],
       (importedForest mkId children (k + 1)).2)
/-- The nodes a tree-shaped host holds after the import of a forest. -/
def importedForest (mkId : Nat → String) : List Node → Nat → List Node × Nat
  | [], k => ([], k)
  | c :: rest, k =>
      ((importedNode mkId c k).1 ++ (importedForest mkId rest (importedNode mkId c k).2).1,
       (importedForest mkId rest (importedNode mkId c k).2).2)
end

mutual
/-- The first node with the given id in a subtree, in pre-order. -/
def findNode (id : String) : Node → Option Node
  | .leaf i t u d => if i = id then some (.leaf i t u d) else none
  | .folder i t u d children =>
      if i = id then some (.folder i t u d children) else findNodeForest id children
/-- The first node with the given id in a forest, in pre-order. -/
def findNodeForest (id : String) : List Node → Option Node
  | [] => none
  | c :: rest =>
      match findNode id c with
      | some n => some n
      | none => findNodeForest id rest
end

/-- The host tree of a profile without bookmarks: the root, titled with the empty string,
and the bookmarks bar. -/
def bareTree : List Node :=
  [.folder "0" (some "") none none [.folder "1" (some "Bookmarks bar") none none []]]

/-- A popup over a host that holds `bareTree`. -/
def barePopup : Popup TreeStore :=
  { examplePopup with host := { tree := bareTree, nextId := 100 } }

mutual
/-- Every node of the subtree has a non-empty title and every leaf a non-empty url. -/
def fullyTitled : Node → Bool
  | .leaf _ t u _ => truthy t && truthy u
  | .folder _ t _ _ children => truthy t && fullyTitledForest children
/-- Every node of the forest has a non-empty title and every leaf a non-empty url. -/
def fullyTitledForest : List Node → Bool
  | [] => true
  | c :: rest => fullyTitled c && fullyTitledForest rest
end

/-- The number written by a sequence of decimal digits, continuing from `a`. -/
def decodeDecimal (ds : List Char) (a : Nat) : Nat :=
  ds.foldl (fun a c => 10 * a + (c.toNat - 48)) a

/-- A host tree in which every title and every url is non-empty. -/
def titledTree : List Node :=
  [.folder "1" (some "Bookmarks bar") none none
    [.leaf "5" (some "Docs") (some "https://lean-lang.org") none]]

/-- A popup over a host that holds `titledTree`. -/
def titledPopup : Popup TreeStore :=
  { examplePopup with host := { tree := titledTree, nextId := 100 } }

/-! ## Statements -/

/-! ### The tree normalizer as two pre-order listings -/

mutual
theorem processNode_eq : ∀ (n : Node) (parentId : Option String) (m : BookmarkManager),
    processNode n parentId m =
      { m with folders := m.folders ++ nodeFolders n parentId,
               bookmarks := m.bookmarks ++ nodeBookmarks n parentId }
  | .leaf id t u d, parentId, m => by
      simp [processNode, nodeFolders, nodeBookmarks, bookmarkEntry, Node.id, Node.title,
        Node.url, Node.dateAdded]
  | .folder id t u d children, parentId, m => by
      rw [processNode, processChildren_eq children id]
      simp [nodeFolders, nodeBookmarks, folderEntry, Node.id, Node.title, Node.dateAdded,
        Node.children]
theorem processChildren_eq : ∀ (l : List Node) (id : String) (m : BookmarkManager),
    processChildren l id m =
      { m with folders := m.folders ++ forestFolders l (some id),
               bookmarks := m.bookmarks ++ forestBookmarks l (some id) }
  | [], id, m => by simp [processChildren, forestFolders, forestBookmarks]
  | c :: rest, id, m => by
      rw [processChildren, processNode_eq c (some id), processChildren_eq rest id]
      simp [forestFolders, forestBookmarks]
end

theorem processRoots_eq : ∀ (l : List Node) (m : BookmarkManager),
    processRoots l m =
      { m with folders := m.folders ++ forestFolders l none,
               bookmarks := m.bookmarks ++ forestBookmarks l none }
  | [], m => by simp [processRoots, forestFolders, forestBookmarks]
  | c :: rest, m => by
      rw [processRoots, processNode_eq c none, processRoots_eq rest]
      simp [forestFolders, forestBookmarks]

theorem processBookmarkTree_folders (m : BookmarkManager) (tree : List Node) :
    (processBookmarkTree m tree).folders = forestFolders tree none := by
  simp [processBookmarkTree, processRoots_eq]

theorem processBookmarkTree_bookmarks (m : BookmarkManager) (tree : List Node) :
    (processBookmarkTree m tree).bookmarks = forestBookmarks tree none := by
  simp [processBookmarkTree, processRoots_eq]

mutual
theorem nodeFolders_length : ∀ (n : Node) (p : Option String),
    (nodeFolders n p).length = folderCount n
  | .leaf _ _ _ _, _ => by simp [nodeFolders, folderCount]
  | .folder id _ _ _ children, p => by
      simp [nodeFolders, folderCount, forestFolders_length children (some id)]; omega
theorem forestFolders_length : ∀ (l : List Node) (p : Option String),
    (forestFolders l p).length = forestFolderCount l
  | [], _ => by simp [forestFolders, forestFolderCount]
  | c :: rest, p => by
      simp [forestFolders, forestFolderCount, nodeFolders_length c p,
        forestFolders_length rest p]
end

mutual
theorem nodeBookmarks_length : ∀ (n : Node) (p : Option String),
    (nodeBookmarks n p).length = leafCount n
  | .leaf _ _ _ _, _ => by simp [nodeBookmarks, leafCount]
  | .folder id _ _ _ children, p => by
      simp [nodeBookmarks, leafCount, forestBookmarks_length children (some id)]
theorem forestBookmarks_length : ∀ (l : List Node) (p : Option String),
    (forestBookmarks l p).length = forestLeafCount l
  | [], _ => by simp [forestBookmarks, forestLeafCount]
  | c :: rest, p => by
      simp [forestBookmarks, forestLeafCount, nodeBookmarks_length c p,
        forestBookmarks_length rest p]
end

mutual
theorem nodeFolders_ids : ∀ (n : Node) (p : Option String),
    (nodeFolders n p).map (fun f => f.id) = nodeFolderIds n
  | .leaf _ _ _ _, _ => by simp [nodeFolders, nodeFolderIds]
  | .folder id _ _ _ children, p => by
      simp [nodeFolders, nodeFolderIds, folderEntry, Node.id,
        forestFolders_ids children (some id)]
theorem forestFolders_ids : ∀ (l : List Node) (p : Option String),
    (forestFolders l p).map (fun f => f.id) = forestFolderIds l
  | [], _ => by simp [forestFolders, forestFolderIds]
  | c :: rest, p => by
      simp [forestFolders, forestFolderIds, nodeFolders_ids c p, forestFolders_ids rest p]
end

mutual
theorem nodeBookmarks_ids : ∀ (n : Node) (p : Option String),
    (nodeBookmarks n p).map (fun b => b.id) = nodeLeafIds n
  | .leaf _ _ _ _, _ => by simp [nodeBookmarks, nodeLeafIds, bookmarkEntry, Node.id]
  | .folder id _ _ _ children, p => by
      simp [nodeBookmarks, nodeLeafIds, forestBookmarks_ids children (some id)]
theorem forestBookmarks_ids : ∀ (l : List Node) (p : Option String),
    (forestBookmarks l p).map (fun b => b.id) = forestLeafIds l
  | [], _ => by simp [forestBookmarks, forestLeafIds]
  | c :: rest, p => by
      simp [forestBookmarks, forestLeafIds, nodeBookmarks_ids c p,
        forestBookmarks_ids rest p]
end

mutual
theorem nodeIds_perm : ∀ n : Node, (nodeIds n).Perm (nodeFolderIds n ++ nodeLeafIds n)
  | .leaf _ _ _ _ => by simp [nodeIds, nodeFolderIds, nodeLeafIds]
  | .folder id _ _ _ children => by
      simpa [nodeIds, nodeFolderIds, nodeLeafIds] using forestIds_perm children
theorem forestIds_perm : ∀ l : List Node,
    (forestIds l).Perm (forestFolderIds l ++ forestLeafIds l)
  | [] => by simp [forestIds, forestFolderIds, forestLeafIds]
  | c :: rest => by
      simp only [forestIds, forestFolderIds, forestLeafIds]
      refine ((nodeIds_perm c).append (forestIds_perm rest)).trans ?_
      simp only [List.append_assoc]
      exact List.Perm.append_left _ (List.perm_append_comm_assoc _ _ _)
end

/-! ### C1 -/

/-- C1: `processBookmarkTree` leaves one folder entry per node exposing a children array and
one bookmark entry per other node, and the ids of the entries are pairwise distinct
whenever the ids of the tree are. -/
theorem processBookmarkTree_counts (m : BookmarkManager) (tree : List Node) :
    (processBookmarkTree m tree).folders.length = forestFolderCount tree ∧
    (processBookmarkTree m tree).bookmarks.length = forestLeafCount tree ∧
    ((forestIds tree).Nodup →
      ((processBookmarkTree m tree).folders.map (fun f => f.id) ++
        (processBookmarkTree m tree).bookmarks.map (fun b => b.id)).Nodup) := by
  rw [processBookmarkTree_folders, processBookmarkTree_bookmarks, forestFolders_length,
    forestBookmarks_length, forestFolders_ids, forestBookmarks_ids]
  exact ⟨rfl, rfl, fun h => (forestIds_perm tree).nodup_iff.mp h⟩

theorem processBookmarkTree_counts_witness :
    (processBookmarkTree BookmarkManager.initial exampleTree).folders.length = 3 ∧
    (processBookmarkTree BookmarkManager.initial exampleTree).bookmarks.length = 2 ∧
    ((processBookmarkTree BookmarkManager.initial exampleTree).folders.map (fun f => f.id) ++
      (processBookmarkTree BookmarkManager.initial exampleTree).bookmarks.map
        (fun b => b.id)).Nodup :=
  ⟨(processBookmarkTree_counts BookmarkManager.initial exampleTree).1.trans (by decide),
   (processBookmarkTree_counts BookmarkManager.initial exampleTree).2.1.trans (by decide),
   (processBookmarkTree_counts BookmarkManager.initial exampleTree).2.2 (by decide)⟩

/-! ### C5 -/

mutual
theorem nodeFolders_parent : ∀ (n : Node) (p : Option String) (f : FolderData),
    f ∈ nodeFolders n p →
      (f = folderEntry n p ∧ n.isFolder = true) ∨
      ∃ q, f.parentId = some q ∧ q ∈ nodeFolderIds n
  | .leaf _ _ _ _, _, f, h => by simp [nodeFolders] at h
  | .folder id t u d children, p, f, h => by
      simp only [nodeFolders, List.mem_cons] at h
      rcases h with h | h
      · exact Or.inl ⟨h, rfl⟩
      · right
        rcases forestFolders_parent children id f h with h1 | ⟨q, h1, h2⟩
        · exact ⟨id, h1, by simp [nodeFolderIds]⟩
        · exact ⟨q, h1, by simp [nodeFolderIds, h2]⟩
theorem forestFolders_parent : ∀ (l : List Node) (id : String) (f : FolderData),
    f ∈ forestFolders l (some id) →
      f.parentId = some id ∨ ∃ q, f.parentId = some q ∧ q ∈ forestFolderIds l
  | [], _, f, h => by simp [forestFolders] at h
  | c :: rest, id, f, h => by
      simp only [forestFolders, List.mem_append] at h
      rcases h with h | h
      · rcases nodeFolders_parent c (some id) f h with ⟨h1, _⟩ | ⟨q, h1, h2⟩
        · exact Or.inl (by rw [h1]; rfl)
        · exact Or.inr ⟨q, h1, by simp [forestFolderIds, h2]⟩
      · rcases forestFolders_parent rest id f h with h1 | ⟨q, h1, h2⟩
        · exact Or.inl h1
        · exact Or.inr ⟨q, h1, by simp [forestFolderIds, h2]⟩
end

mutual
theorem nodeBookmarks_parent : ∀ (n : Node) (p : Option String) (b : BookmarkData),
    b ∈ nodeBookmarks n p →
      (b = bookmarkEntry n p ∧ n.isFolder = false) ∨
      ∃ q, b.parentId = some q ∧ q ∈ nodeFolderIds n
  | .leaf _ _ _ _, _, b, h => by
      simp only [nodeBookmarks, List.mem_singleton] at h
      exact Or.inl ⟨h, rfl⟩
  | .folder id t u d children, p, b, h => by
      simp only [nodeBookmarks] at h
      right
      rcases forestBookmarks_parent children id b h with h1 | ⟨q, h1, h2⟩
      · exact ⟨id, h1, by simp [nodeFolderIds]⟩
      · exact ⟨q, h1, by simp [nodeFolderIds, h2]⟩
theorem forestBookmarks_parent : ∀ (l : List Node) (id : String) (b : BookmarkData),
    b ∈ forestBookmarks l (some id) →
      b.parentId = some id ∨ ∃ q, b.parentId = some q ∧ q ∈ forestFolderIds l
  | [], _, b, h => by simp [forestBookmarks] at h
  | c :: rest, id, b, h => by
      simp only [forestBookmarks, List.mem_append] at h
      rcases h with h | h
      · rcases nodeBookmarks_parent c (some id) b h with ⟨h1, _⟩ | ⟨q, h1, h2⟩
        · exact Or.inl (by rw [h1]; rfl)
        · exact Or.inr ⟨q, h1, by simp [forestFolderIds, h2]⟩
      · rcases forestBookmarks_parent rest id b h with h1 | ⟨q, h1, h2⟩
        · exact Or.inl h1
        · exact Or.inr ⟨q, h1, by simp [forestFolderIds, h2]⟩
end

theorem nodeFolders_filter_none (n : Node) :
    (nodeFolders n none).filter (fun f => f.parentId == none) =
      if n.isFolder then [folderEntry n none] else [] := by
  cases n with
  | leaf id t u d => simp [nodeFolders, Node.isFolder]
  | folder id t u d children =>
      simp only [nodeFolders, Node.isFolder, if_true]
      rw [List.filter_cons_of_pos (by simp [folderEntry])]
      congr 1
      rw [List.filter_eq_nil_iff]
      intro f hf
      rcases forestFolders_parent children id f hf with h | ⟨q, h, _⟩ <;> simp [h]

theorem nodeBookmarks_filter_none (n : Node) :
    (nodeBookmarks n none).filter (fun b => b.parentId == none) =
      if n.isFolder then [] else [bookmarkEntry n none] := by
  cases n with
  | leaf id t u d => simp [nodeBookmarks, Node.isFolder, bookmarkEntry]
  | folder id t u d children =>
      simp only [nodeBookmarks, Node.isFolder, if_true]
      rw [List.filter_eq_nil_iff]
      intro b hb
      rcases forestBookmarks_parent children id b hb with h | ⟨q, h, _⟩ <;> simp [h]

theorem forestFolders_filter_none : ∀ l : List Node,
    (forestFolders l none).filter (fun f => f.parentId == none) =
      (l.filter Node.isFolder).map (fun n => folderEntry n none)
  | [] => by simp [forestFolders]
  | c :: rest => by
      rw [forestFolders, List.filter_append, nodeFolders_filter_none,
        forestFolders_filter_none rest]
      cases h : c.isFolder <;> simp [h]

theorem forestBookmarks_filter_none : ∀ l : List Node,
    (forestBookmarks l none).filter (fun b => b.parentId == none) =
      (l.filter (fun n => !n.isFolder)).map (fun n => bookmarkEntry n none)
  | [] => by simp [forestBookmarks]
  | c :: rest => by
      rw [forestBookmarks, List.filter_append, nodeBookmarks_filter_none,
        forestBookmarks_filter_none rest]
      cases h : c.isFolder <;> simp [h]

theorem forestFolders_parent_none : ∀ (l : List Node) (f : FolderData),
    f ∈ forestFolders l none → ∀ q, f.parentId = some q → q ∈ forestFolderIds l
  | [], f, h => by simp [forestFolders] at h
  | c :: rest, f, h => by
      intro q hq
      simp only [forestFolders, List.mem_append] at h
      rcases h with h | h
      · rcases nodeFolders_parent c none f h with ⟨h1, _⟩ | ⟨q1, h1, h2⟩
        · rw [h1] at hq; simp [folderEntry] at hq
        · rw [h1] at hq; cases hq; simp [forestFolderIds, h2]
      · simp [forestFolderIds, forestFolders_parent_none rest f h q hq]

theorem forestBookmarks_parent_none : ∀ (l : List Node) (b : BookmarkData),
    b ∈ forestBookmarks l none → ∀ q, b.parentId = some q → q ∈ forestFolderIds l
  | [], b, h => by simp [forestBookmarks] at h
  | c :: rest, b, h => by
      intro q hq
      simp only [forestBookmarks, List.mem_append] at h
      rcases h with h | h
      · rcases nodeBookmarks_parent c none b h with ⟨h1, _⟩ | ⟨q1, h1, h2⟩
        · rw [h1] at hq; simp [bookmarkEntry] at hq
        · rw [h1] at hq; cases hq; simp [forestFolderIds, h2]
      · simp [forestFolderIds, forestBookmarks_parent_none rest b h q hq]

/-- C5: after `processBookmarkTree` every entry with a non-null `parentId` points to the id
of an entry of `folders`, and the entries with a null `parentId` are, in order, the ones
made of the top-level root nodes. -/
theorem processBookmarkTree_parentIds (m : BookmarkManager) (tree : List Node) :
    (∀ f ∈ (processBookmarkTree m tree).folders, ∀ p, f.parentId = some p →
      ∃ g ∈ (processBookmarkTree m tree).folders, g.id = p) ∧
    (∀ b ∈ (processBookmarkTree m tree).bookmarks, ∀ p, b.parentId = some p →
      ∃ g ∈ (processBookmarkTree m tree).folders, g.id = p) ∧
    (processBookmarkTree m tree).folders.filter (fun f => f.parentId == none) =
      (tree.filter Node.isFolder).map (fun n => folderEntry n none) ∧
    (processBookmarkTree m tree).bookmarks.filter (fun b => b.parentId == none) =
      (tree.filter (fun n => !n.isFolder)).map (fun n => bookmarkEntry n none) := by
  rw [processBookmarkTree_folders, processBookmarkTree_bookmarks]
  refine ⟨?_, ?_, forestFolders_filter_none tree, forestBookmarks_filter_none tree⟩
  · intro f hf p hp
    have h := forestFolders_parent_none tree f hf p hp
    rw [← forestFolders_ids tree none] at h
    simpa using h
  · intro b hb p hp
    have h := forestBookmarks_parent_none tree b hb p hp
    rw [← forestFolders_ids tree none] at h
    simpa using h

theorem processBookmarkTree_parentIds_witness :
    ∃ g ∈ (processBookmarkTree BookmarkManager.initial exampleTree).folders, g.id = "10" :=
  (processBookmarkTree_parentIds BookmarkManager.initial exampleTree).2.1
    { id := "11", title := "Site1", url := some "https://a.com", parentId := some "10",
      dateAdded := none } (by decide) "10" rfl

/-! ### C10: the parent walk ends -/

theorem ParentsKnown.mono : ∀ (l : List FolderData) (k1 k2 : List String),
    (∀ q ∈ k1, q ∈ k2) → ParentsKnown k1 l → ParentsKnown k2 l
  | [], _, _, _, _ => trivial
  | f :: rest, k1, k2, hsub, h =>
      ⟨fun q hq => hsub q (h.1 q hq),
       ParentsKnown.mono rest (f.id :: k1) (f.id :: k2)
        (fun q hq => by
          rcases List.mem_cons.mp hq with hq | hq
          · exact List.mem_cons.mpr (Or.inl hq)
          · exact List.mem_cons.mpr (Or.inr (hsub q hq))) h.2⟩

theorem ParentsKnown.append : ∀ (l1 l2 : List FolderData) (known : List String),
    ParentsKnown known l1 →
    ParentsKnown ((l1.map (fun f => f.id)) ++ known) l2 →
    ParentsKnown known (l1 ++ l2)
  | [], l2, known, _, h2 => by simpa using h2
  | f :: rest, l2, known, h1, h2 => by
      refine ⟨h1.1, ParentsKnown.append rest l2 (f.id :: known) h1.2 ?_⟩
      refine ParentsKnown.mono l2 _ _ ?_ h2
      intro q hq
      simp only [List.map_cons, List.cons_append, List.mem_cons, List.mem_append] at hq ⊢
      tauto

mutual
theorem nodeFolders_parentsKnown : ∀ (n : Node) (p : Option String) (known : List String),
    (∀ q, p = some q → q ∈ known) → ParentsKnown known (nodeFolders n p)
  | .leaf _ _ _ _, _, _, _ => by simp [nodeFolders, ParentsKnown]
  | .folder id t u d children, p, known, hp => by
      simp only [nodeFolders, ParentsKnown]
      refine ⟨fun q hq => hp q hq, ?_⟩
      exact forestFolders_parentsKnown children (some id) _
        (fun q hq => by
          cases hq
          exact List.mem_cons.mpr (Or.inl rfl))
theorem forestFolders_parentsKnown : ∀ (l : List Node) (p : Option String)
    (known : List String),
    (∀ q, p = some q → q ∈ known) → ParentsKnown known (forestFolders l p)
  | [], _, _, _ => by simp [forestFolders, ParentsKnown]
  | c :: rest, p, known, hp => by
      simp only [forestFolders]
      refine ParentsKnown.append _ _ _ (nodeFolders_parentsKnown c p known hp) ?_
      exact forestFolders_parentsKnown rest p _
        (fun q hq => List.mem_append.mpr (Or.inr (hp q hq)))
end

theorem ParentsKnown.earlier : ∀ (l : List FolderData) (known : List String),
    ParentsKnown known l → ∀ (k : Nat) (f : FolderData), l[k]? = some f →
      ∀ q, f.parentId = some q →
        q ∈ known ∨ ∃ j, j < k ∧ ∃ g, l[j]? = some g ∧ g.id = q
  | [], _, _, k, f, hk => by simp at hk
  | f0 :: rest, known, h, 0, f, hk => by
      intro q hq
      simp only [List.getElem?_cons_zero, Option.some.injEq] at hk
      subst hk
      exact Or.inl (h.1 q hq)
  | f0 :: rest, known, h, k + 1, f, hk => by
      intro q hq
      simp only [List.getElem?_cons_succ] at hk
      rcases ParentsKnown.earlier rest (f0.id :: known) h.2 k f hk q hq with h1 | ⟨j, hj, g, hg, hgq⟩
      · rcases List.mem_cons.mp h1 with h1 | h1
        · exact Or.inr ⟨0, Nat.succ_pos k, f0, by simp, h1.symm⟩
        · exact Or.inl h1
      · exact Or.inr ⟨j + 1, Nat.succ_lt_succ hj, g, by simpa using hg, hgq⟩

theorem find?_first_index {α : Type} (P : α → Bool) : ∀ (l : List α) (j : Nat) (g : α),
    l[j]? = some g → P g = true →
      ∃ j', j' ≤ j ∧ ∃ g', l.find? P = some g' ∧ l[j']? = some g'
  | [], j, g, hj, _ => by simp at hj
  | a :: rest, 0, g, hj, hg => by
      simp only [List.getElem?_cons_zero, Option.some.injEq] at hj
      subst hj
      exact ⟨0, le_refl 0, a, by simp [List.find?, hg], by simp⟩
  | a :: rest, j + 1, g, hj, hg => by
      simp only [List.getElem?_cons_succ] at hj
      by_cases ha : P a = true
      · exact ⟨0, Nat.zero_le _, a, by simp [List.find?, ha], by simp⟩
      · rcases find?_first_index P rest j g hj hg with ⟨j', hj', g', hg', hg''⟩
        refine ⟨j' + 1, Nat.succ_le_succ hj', g', ?_, by simpa using hg''⟩
        simp only [Bool.not_eq_true] at ha
        simp [List.find?, ha, hg']

theorem find?_index {α : Type} (P : α → Bool) (l : List α) (g : α)
    (h : l.find? P = some g) : ∃ j : Nat, l[j]? = some g :=
  List.mem_iff_getElem?.mp (List.mem_of_find?_eq_some h)

theorem parentWalk_from_index (folders : List FolderData)
    (hknown : ParentsKnown [] folders) :
    ∀ (k : Nat) (f : FolderData) (acc : List Crumb), folders[k]? = some f →
      ∃ ext : List Crumb,
        (∀ fuel, k + 1 ≤ fuel →
          parentWalk folders fuel (some f) acc = some (ext ++ acc)) ∧
        ext.length ≤ k + 1 ∧
        ∀ c ∈ ext, c.id ≠ "1" ∧ ∃ g ∈ folders, c = folderCrumb g := by
  intro k
  induction k using Nat.strong_induction_on with
  | _ k ih =>
    intro f acc hk
    by_cases h1 : f.id = "1"
    · refine ⟨[], ?_, by simp, by simp⟩
      intro fuel _
      cases fuel <;> simp [parentWalk, h1]
    · have hmem : f ∈ folders := List.getElem?_mem hk
      cases hp : f.parentId with
      | none =>
          refine ⟨[folderCrumb f], ?_, by simp, ?_⟩
          · intro fuel hfuel
            obtain ⟨fuel', rfl⟩ : ∃ n, fuel = n + 1 := ⟨fuel - 1, by omega⟩
            simp [parentWalk, h1, hp, findFolder]
          · intro c hc
            simp only [List.mem_singleton] at hc
            subst hc
            exact ⟨h1, f, hmem, rfl⟩
      | some q =>
          rcases ParentsKnown.earlier folders [] hknown k f hk q hp with h | ⟨j, hj, g, hg, hgq⟩
          · simp at h
          · rcases find?_first_index (fun x => x.id == q) folders j g hg (by simp [hgq]) with
              ⟨j', hj', g', hfind, hg'⟩
            rcases ih j' (by omega) g' (folderCrumb f :: acc) hg' with ⟨ext, hrun, hlen, hext⟩
            refine ⟨ext ++ [folderCrumb f], ?_, by simp; omega, ?_⟩
            · intro fuel hfuel
              obtain ⟨fuel', rfl⟩ : ∃ n, fuel = n + 1 := ⟨fuel - 1, by omega⟩
              simp only [parentWalk, h1, if_false, hp, findFolder, hfind]
              rw [hrun fuel' (by omega)]
              simp
            · intro c hc
              rcases List.mem_append.mp hc with hc | hc
              · exact hext c hc
              · simp only [List.mem_singleton] at hc
                subst hc
                exact ⟨h1, f, hmem, rfl⟩

theorem getBreadcrumbPath_of_parentsKnown (s : BookmarkManager)
    (hknown : ParentsKnown [] s.folders) :
    ∃ ext : List Crumb,
      (∀ fuel, s.folders.length ≤ fuel →
        getBreadcrumbPath fuel s = some (homeCrumb :: ext)) ∧
      ext.length ≤ s.folders.length ∧
      (∀ c ∈ ext, c.id ≠ "1" ∧ ∃ g ∈ s.folders, c = folderCrumb g) ∧
      (s.currentFolderId ≠ "1" → (∀ f ∈ s.folders, f.id ≠ s.currentFolderId) →
        ext = []) := by
  by_cases h1 : s.currentFolderId = "1"
  · refine ⟨[], ?_, by simp, by simp, fun h => absurd h1 h⟩
    intro fuel _
    simp [getBreadcrumbPath, h1]
  · cases hfind : s.folders.find? (fun f => f.id == s.currentFolderId) with
    | none =>
        refine ⟨[], ?_, by simp, by simp, fun _ _ => rfl⟩
        intro fuel _
        cases fuel <;> simp [getBreadcrumbPath, h1, findFolder, hfind, parentWalk]
    | some f =>
        rcases find?_index _ s.folders f hfind with ⟨k, hk⟩
        have hklt : k < s.folders.length := by
          by_contra hge
          rw [List.getElem?_eq_none (by omega)] at hk
          cases hk
        rcases parentWalk_from_index s.folders hknown k f [] hk with ⟨ext, hrun, hlen, hext⟩
        refine ⟨ext, ?_, by omega, hext, ?_⟩
        · intro fuel hfuel
          simp [getBreadcrumbPath, h1, findFolder, hfind, hrun fuel (by omega)]
        · intro _ hall
          have hf := List.find?_some hfind
          have hm := List.mem_of_find?_eq_some hfind
          exact absurd (by simpa using hf) (hall f hm)

theorem processBookmarkTree_currentFolderId (m : BookmarkManager) (tree : List Node) :
    (processBookmarkTree m tree).currentFolderId = m.currentFolderId := by
  simp [processBookmarkTree, processRoots_eq]

/-- C10: on the folders of any host tree the parent walk of `getBreadcrumbPath` ends within
as many steps as there are folder entries: with that much fuel or more the method returns
one and the same path, "Home" followed by at most that many folders, none of which has
id "1"; when the current folder id is neither "1" nor the id of a folder the path is the
single "Home" entry. -/
theorem getBreadcrumbPath_terminates (m : BookmarkManager) (tree : List Node) :
    ∃ ext : List Crumb,
      (∀ fuel, (processBookmarkTree m tree).folders.length ≤ fuel →
        getBreadcrumbPath fuel (processBookmarkTree m tree) = some (homeCrumb :: ext)) ∧
      ext.length ≤ (processBookmarkTree m tree).folders.length ∧
      (∀ c ∈ ext, c.id ≠ "1" ∧
        ∃ g ∈ (processBookmarkTree m tree).folders, c = folderCrumb g) ∧
      (m.currentFolderId ≠ "1" →
        (∀ f ∈ (processBookmarkTree m tree).folders, f.id ≠ m.currentFolderId) →
        ext = []) := by
  have hknown : ParentsKnown [] (processBookmarkTree m tree).folders := by
    rw [processBookmarkTree_folders]
    exact forestFolders_parentsKnown tree none [] (fun q hq => by cases hq)
  have h := getBreadcrumbPath_of_parentsKnown (processBookmarkTree m tree) hknown
  rw [processBookmarkTree_currentFolderId] at h
  exact h

theorem getBreadcrumbPath_terminates_witness :
    getBreadcrumbPath 3
      (processBookmarkTree { BookmarkManager.initial with currentFolderId := "99" }
        exampleTree) = some [homeCrumb] :=
  match getBreadcrumbPath_terminates
      { BookmarkManager.initial with currentFolderId := "99" } exampleTree with
  | ⟨_, hrun, _, _, hnil⟩ => by
      have h := hrun 3 (by decide)
      rw [hnil (by decide) (by decide)] at h
      exact h

/-! ### C3: the breadcrumb of a folder below the bookmarks bar -/

theorem self_mem_subnodes (n : Node) : n ∈ subnodes n := by
  cases n <;> simp [subnodes]

theorem root_mem_forestNodes : ∀ (l : List Node) (x : Node), x ∈ l → x ∈ forestNodes l
  | [], x, h => by simp at h
  | c :: rest, x, h => by
      simp only [forestNodes, List.mem_append]
      rcases List.mem_cons.mp h with h | h
      · exact Or.inl (h ▸ self_mem_subnodes x)
      · exact Or.inr (root_mem_forestNodes rest x h)

mutual
theorem child_mem_subnodes : ∀ (n p x : Node), p ∈ subnodes n → x ∈ p.childList →
    x ∈ subnodes n
  | .leaf _ _ _ _, p, x, hp, hx => by
      simp only [subnodes, List.mem_singleton] at hp
      subst hp
      simp [Node.childList, Node.children] at hx
  | .folder id t u d children, p, x, hp, hx => by
      simp only [subnodes, List.mem_cons] at hp ⊢
      right
      rcases hp with hp | hp
      · subst hp
        exact root_mem_forestNodes children x (by simpa [Node.childList, Node.children] using hx)
      · exact child_mem_forestNodes children p x hp hx
theorem child_mem_forestNodes : ∀ (l : List Node) (p x : Node), p ∈ forestNodes l →
    x ∈ p.childList → x ∈ forestNodes l
  | [], p, x, hp, _ => by simp [forestNodes] at hp
  | c :: rest, p, x, hp, hx => by
      simp only [forestNodes, List.mem_append] at hp ⊢
      rcases hp with hp | hp
      · exact Or.inl (child_mem_subnodes c p x hp hx)
      · exact Or.inr (child_mem_forestNodes rest p x hp hx)
end

theorem mem_nodeFolders_self (n : Node) (q : Option String) (h : n.isFolder = true) :
    folderEntry n q ∈ nodeFolders n q := by
  cases n with
  | leaf id t u d => simp [Node.isFolder] at h
  | folder id t u d children => simp [nodeFolders]

theorem mem_forestFolders_root : ∀ (l : List Node) (x : Node) (q : Option String),
    x ∈ l → x.isFolder = true → folderEntry x q ∈ forestFolders l q
  | [], x, _, h, _ => by simp at h
  | c :: rest, x, q, h, hx => by
      simp only [forestFolders, List.mem_append]
      rcases List.mem_cons.mp h with h | h
      · exact Or.inl (h ▸ mem_nodeFolders_self x q hx)
      · exact Or.inr (mem_forestFolders_root rest x q h hx)

mutual
theorem child_entry_mem_nodeFolders : ∀ (n p x : Node) (q : Option String),
    p ∈ subnodes n → x ∈ p.childList → x.isFolder = true →
    folderEntry x (some p.id) ∈ nodeFolders n q
  | .leaf _ _ _ _, p, x, _, hp, hx, _ => by
      simp only [subnodes, List.mem_singleton] at hp
      subst hp
      simp [Node.childList, Node.children] at hx
  | .folder id t u d children, p, x, q, hp, hx, hf => by
      simp only [subnodes, List.mem_cons] at hp
      simp only [nodeFolders, List.mem_cons]
      right
      rcases hp with hp | hp
      · subst hp
        exact mem_forestFolders_root children x (some id)
          (by simpa [Node.childList, Node.children] using hx) hf
      · exact child_entry_mem_forestFolders children p x (some id) hp hx hf
theorem child_entry_mem_forestFolders : ∀ (l : List Node) (p x : Node) (q : Option String),
    p ∈ forestNodes l → x ∈ p.childList → x.isFolder = true →
    folderEntry x (some p.id) ∈ forestFolders l q
  | [], p, x, _, hp, _, _ => by simp [forestNodes] at hp
  | c :: rest, p, x, q, hp, hx, hf => by
      simp only [forestNodes, List.mem_append] at hp
      simp only [forestFolders, List.mem_append]
      rcases hp with hp | hp
      · exact Or.inl (child_entry_mem_nodeFolders c p x q hp hx hf)
      · exact Or.inr (child_entry_mem_forestFolders rest p x q hp hx hf)
end

mutual
theorem nodeIds_sublist_of_mem_subnodes : ∀ (n p : Node), p ∈ subnodes n →
    (nodeIds p).Sublist (nodeIds n)
  | .leaf _ _ _ _, p, hp => by
      simp only [subnodes, List.mem_singleton] at hp
      subst hp
      exact List.Sublist.refl _
  | .folder id t u d children, p, hp => by
      simp only [subnodes, List.mem_cons] at hp
      rcases hp with hp | hp
      · subst hp
        exact List.Sublist.refl _
      · simp only [nodeIds]
        exact (nodeIds_sublist_of_mem_forestNodes children p hp).cons _
theorem nodeIds_sublist_of_mem_forestNodes : ∀ (l : List Node) (p : Node),
    p ∈ forestNodes l → (nodeIds p).Sublist (forestIds l)
  | [], p, hp => by simp [forestNodes] at hp
  | c :: rest, p, hp => by
      simp only [forestNodes, List.mem_append] at hp
      simp only [forestIds]
      rcases hp with hp | hp
      · exact (nodeIds_sublist_of_mem_subnodes c p hp).trans (List.sublist_append_left _ _)
      · exact (nodeIds_sublist_of_mem_forestNodes rest p hp).trans
          (List.sublist_append_right _ _)
end

theorem self_id_mem_nodeIds (n : Node) : n.id ∈ nodeIds n := by
  cases n <;> simp [nodeIds, Node.id]

theorem id_mem_forestIds (l : List Node) (x : Node) (h : x ∈ forestNodes l) :
    x.id ∈ forestIds l :=
  (nodeIds_sublist_of_mem_forestNodes l x h).subset (self_id_mem_nodeIds x)

theorem id_not_mem_children_ids (tree : List Node) (hids : (forestIds tree).Nodup)
    (p : Node) (hp : p ∈ forestNodes tree) : p.id ∉ forestIds p.childList := by
  have h := hids.sublist (nodeIds_sublist_of_mem_forestNodes tree p hp)
  cases p with
  | leaf id t u d => simp [Node.childList, Node.children, forestIds]
  | folder id t u d children =>
      simp only [nodeIds, List.nodup_cons] at h
      simpa [Node.childList, Node.children, Node.id] using h.1

theorem find?_of_nodup_ids : ∀ (l : List FolderData) (e : FolderData),
    (l.map (fun f => f.id)).Nodup → e ∈ l → l.find? (fun f => f.id == e.id) = some e
  | [], e, _, h => by simp at h
  | a :: rest, e, hn, h => by
      simp only [List.map_cons, List.nodup_cons] at hn
      rcases List.mem_cons.mp h with h | h
      · subst h
        simp [List.find?]
      · have hne : a.id ≠ e.id := fun hae =>
          hn.1 (hae ▸ List.mem_map_of_mem (fun f => f.id) h)
        have hb : (a.id == e.id) = false := by simpa using hne
        simp only [List.find?, hb]
        exact find?_of_nodup_ids rest e hn.2 h

theorem IsLineage.mem : ∀ (anc : List Node) (top cur : Node) (F : List Node),
    IsLineage top cur anc → top ∈ forestNodes F →
      lineageParent top anc ∈ forestNodes F ∧ cur ∈ (lineageParent top anc).childList ∧
      cur ∈ forestNodes F ∧ cur ∈ forestNodes top.childList
  | [], top, cur, F, h, htop =>
      ⟨htop, h, child_mem_forestNodes F top cur htop h,
        root_mem_forestNodes _ cur h⟩
  | a :: rest, top, cur, F, h, htop =>
      have ih := IsLineage.mem rest top a F h.2 htop
      ⟨ih.2.2.1, h.1, child_mem_forestNodes F a cur ih.2.2.1 h.1,
        child_mem_forestNodes _ a cur ih.2.2.2 h.1⟩

theorem isFolder_of_child (p x : Node) (h : x ∈ p.childList) : p.isFolder = true := by
  cases p with
  | leaf id t u d => simp [Node.childList, Node.children] at h
  | folder id t u d children => rfl

theorem parentWalk_root (folders : List FolderData) (fuel : Nat) (acc : List Crumb) :
    parentWalk folders fuel (findFolder folders (some "1")) acc = some acc := by
  cases hfind : findFolder folders (some "1") with
  | none => cases fuel <;> simp [parentWalk]
  | some f =>
      have hf : f.id = "1" := by
        simp only [findFolder] at hfind
        simpa using List.find?_some hfind
      cases fuel <;> simp [parentWalk, hf]

theorem parentWalk_lineage (tree : List Node) (hids : (forestIds tree).Nodup)
    (top : Node) (htop : top ∈ forestNodes tree) (h1 : top.id = "1") :
    ∀ (anc : List Node) (cur : Node) (acc : List Crumb) (fuel : Nat),
      IsLineage top cur anc → cur.isFolder = true → anc.length + 1 ≤ fuel →
      (forestFolders tree none).find? (fun f => f.id == cur.id) =
        some (folderEntry cur (some (lineageParent top anc).id)) ∧
      parentWalk (forestFolders tree none) fuel
        (some (folderEntry cur (some (lineageParent top anc).id))) acc =
        some (anc.reverse.map nodeCrumb ++ nodeCrumb cur :: acc) := by
  have hnodup : ((forestFolders tree none).map (fun f => f.id)).Nodup := by
    rw [forestFolders_ids]
    exact ((forestIds_perm tree).nodup_iff.mp hids).of_append_left
  intro anc
  induction anc with
  | nil =>
      intro cur acc fuel hl hf hfuel
      have hm := IsLineage.mem [] top cur tree hl htop
      have hne : cur.id ≠ "1" := fun hc =>
        id_not_mem_children_ids tree hids top htop
          (by rw [h1, ← hc]; exact id_mem_forestIds _ cur hm.2.2.2)
      have hentry := child_entry_mem_forestFolders tree top cur none htop hl hf
      refine ⟨find?_of_nodup_ids _ _ hnodup hentry, ?_⟩
      obtain ⟨fuel', rfl⟩ : ∃ n, fuel = n + 1 := ⟨fuel - 1, by omega⟩
      simp only [parentWalk, lineageParent, folderEntry, hne, if_false, h1]
      rw [parentWalk_root]
      simp [folderCrumb, nodeCrumb]
  | cons a rest ih =>
      intro cur acc fuel hl hf hfuel
      have hm := IsLineage.mem (a :: rest) top cur tree hl htop
      have hne : cur.id ≠ "1" := fun hc =>
        id_not_mem_children_ids tree hids top htop
          (by rw [h1, ← hc]; exact id_mem_forestIds _ cur hm.2.2.2)
      have hentry := child_entry_mem_forestFolders tree a cur none hm.1 hl.1 hf
      refine ⟨find?_of_nodup_ids _ _ hnodup hentry, ?_⟩
      obtain ⟨fuel', rfl⟩ : ∃ n, fuel = n + 1 := ⟨fuel - 1, by omega⟩
      have hstep := ih a (folderCrumb (folderEntry cur (some a.id)) :: acc) fuel' hl.2
        (isFolder_of_child a cur hl.1) (by simpa using hfuel)
      simp only [parentWalk, lineageParent]
      rw [if_neg (by simpa [folderEntry] using hne)]
      have hfind : findFolder (forestFolders tree none) (folderEntry cur (some a.id)).parentId =
          some (folderEntry a (some (lineageParent top rest).id)) := by
        simpa [findFolder, folderEntry] using hstep.1
      rw [hfind, hstep.2]
      simp [folderCrumb, nodeCrumb, folderEntry]

/-- C3: on the snapshot of a tree with pairwise distinct ids, `getBreadcrumbPath` returns the
single entry "Home" (id "1") when the current folder id is "1"; and when the current
folder lies N = `ancestors.length + 1` levels below the node with id "1", it returns, with
N units of fuel or more, the N + 1 entries "Home", the ancestors of the current folder
from the topmost down, and the current folder. -/
theorem getBreadcrumbPath_levels (m : BookmarkManager) (tree : List Node)
    (hids : (forestIds tree).Nodup) :
    (m.currentFolderId = "1" →
      ∀ fuel, getBreadcrumbPath fuel (processBookmarkTree m tree) = some [homeCrumb]) ∧
    (∀ (top cur : Node) (ancestors : List Node),
      top ∈ forestNodes tree → top.id = "1" → IsLineage top cur ancestors →
      cur.isFolder = true → m.currentFolderId = cur.id →
      ∀ fuel, ancestors.length + 1 ≤ fuel →
        getBreadcrumbPath fuel (processBookmarkTree m tree) =
          some (homeCrumb :: (ancestors.reverse.map nodeCrumb ++ [nodeCrumb cur]))) := by
  constructor
  · intro h fuel
    simp [getBreadcrumbPath, processBookmarkTree_currentFolderId, h]
  · intro top cur ancestors htop h1 hl hf hcur fuel hfuel
    have hm := IsLineage.mem ancestors top cur tree hl htop
    have hne : cur.id ≠ "1" := fun hc =>
      id_not_mem_children_ids tree hids top htop
        (by rw [h1, ← hc]; exact id_mem_forestIds _ cur hm.2.2.2)
    have hw := parentWalk_lineage tree hids top htop h1 ancestors cur [] fuel hl hf hfuel
    simp only [getBreadcrumbPath, processBookmarkTree_currentFolderId,
      processBookmarkTree_folders, hcur, ne_eq, hne, not_false_eq_true, if_true, findFolder]
    rw [hw.1, hw.2]
    rfl

theorem getBreadcrumbPath_levels_witness :
    getBreadcrumbPath 2
      (processBookmarkTree { BookmarkManager.initial with currentFolderId := "21" }
        nestedTree) =
      some [homeCrumb, { id := "20", title := "Projects", icon := "📁" },
        { id := "21", title := "Lean", icon := "📁" }] :=
  (getBreadcrumbPath_levels { BookmarkManager.initial with currentFolderId := "21" }
      nestedTree (by decide)).2
    (.folder "1" (some "Bookmarks bar") none none
      [.folder "20" (some "Projects") none none
        [.folder "21" (some "Lean") none none
          [.leaf "22" (some "Docs") (some "https://lean-lang.org") none]]])
    (.folder "21" (some "Lean") none none
      [.leaf "22" (some "Docs") (some "https://lean-lang.org") none])
    [.folder "20" (some "Projects") none none
        [.folder "21" (some "Lean") none none
          [.leaf "22" (some "Docs") (some "https://lean-lang.org") none]]]
    (by simp [nestedTree, forestNodes, subnodes]) rfl
    (by simp [IsLineage, Node.childList, Node.children]) rfl rfl 2 (le_refl 2)

/-! ### The sort of `getCurrentFolderItems` -/

theorem sortInsert_perm {α : Type} (cmp : α → α → Int) (a : α) :
    ∀ l : List α, (sortInsert cmp a l).Perm (a :: l)
  | [] => List.Perm.refl _
  | b :: l => by
      by_cases h : cmp a b ≤ 0
      · simp [sortInsert, h]
      · simp only [sortInsert, h, if_false]
        exact ((sortInsert_perm cmp a l).cons b).trans (List.Perm.swap a b l)

theorem arraySort_perm {α : Type} (cmp : α → α → Int) :
    ∀ l : List α, (arraySort cmp l).Perm l
  | [] => List.Perm.refl _
  | a :: l => (sortInsert_perm cmp a _).trans ((arraySort_perm cmp l).cons a)

theorem sortInsert_sorted {α : Type} (cmp : α → α → Int)
    (htotal : ∀ a b, cmp a b ≤ 0 ∨ cmp b a ≤ 0)
    (htrans : ∀ a b c, cmp a b ≤ 0 → cmp b c ≤ 0 → cmp a c ≤ 0) (a : α) :
    ∀ l : List α, l.Pairwise (fun x y => cmp x y ≤ 0) →
      (sortInsert cmp a l).Pairwise (fun x y => cmp x y ≤ 0)
  | [], _ => by simp [sortInsert]
  | b :: l, hl => by
      rw [List.pairwise_cons] at hl
      by_cases h : cmp a b ≤ 0
      · simp only [sortInsert, h, if_true]
        refine List.pairwise_cons.mpr ⟨?_, List.pairwise_cons.mpr hl⟩
        intro y hy
        rcases List.mem_cons.mp hy with hy | hy
        · exact hy ▸ h
        · exact htrans a b y h (hl.1 y hy)
      · simp only [sortInsert, h, if_false]
        refine List.pairwise_cons.mpr ⟨?_, sortInsert_sorted cmp htotal htrans a l hl.2⟩
        intro y hy
        rcases List.mem_cons.mp ((sortInsert_perm cmp a l).subset hy) with hy | hy
        · exact hy ▸ (htotal a b).resolve_left h
        · exact hl.1 y hy

theorem arraySort_sorted {α : Type} (cmp : α → α → Int)
    (htotal : ∀ a b, cmp a b ≤ 0 ∨ cmp b a ≤ 0)
    (htrans : ∀ a b c, cmp a b ≤ 0 → cmp b c ≤ 0 → cmp a c ≤ 0) :
    ∀ l : List α, (arraySort cmp l).Pairwise (fun x y => cmp x y ≤ 0)
  | [] => List.Pairwise.nil
  | a :: l => sortInsert_sorted cmp htotal htrans a _ (arraySort_sorted cmp htotal htrans l)

theorem sortInsert_append {α : Type} (cmp : α → α → Int) (a : α) (l2 : List α)
    (h2 : ∀ b ∈ l2, cmp a b ≤ 0) :
    ∀ l1 : List α, sortInsert cmp a (l1 ++ l2) = sortInsert cmp a l1 ++ l2
  | [] => by
      cases l2 with
      | nil => rfl
      | cons b l => simp [sortInsert, h2 b (List.mem_cons_self b l)]
  | c :: l1 => by
      by_cases h : cmp a c ≤ 0
      · simp [sortInsert, h]
      · simp [sortInsert, h, sortInsert_append cmp a l2 h2 l1]

theorem arraySort_append {α : Type} (cmp : α → α → Int) (l2 : List α) :
    ∀ l1 : List α, (∀ a ∈ l1, ∀ b ∈ l2, cmp a b ≤ 0) →
      arraySort cmp (l1 ++ l2) = arraySort cmp l1 ++ arraySort cmp l2
  | [], _ => rfl
  | a :: l1, h => by
      have ih := arraySort_append cmp l2 l1
        (fun x hx => h x (List.mem_cons_of_mem a hx))
      show sortInsert cmp a (arraySort cmp (l1 ++ l2)) =
        sortInsert cmp a (arraySort cmp l1) ++ arraySort cmp l2
      rw [ih]
      exact sortInsert_append cmp a _
        (fun b hb => h a (List.mem_cons_self a l1) b ((arraySort_perm cmp l2).subset hb)) _

theorem sortInsert_map {α β : Type} (cmp : α → α → Int) (cmp2 : β → β → Int) (f : α → β)
    (a : α) : ∀ l : List α, (∀ b ∈ l, cmp2 (f a) (f b) = cmp a b) →
      sortInsert cmp2 (f a) (l.map f) = (sortInsert cmp a l).map f
  | [], _ => rfl
  | b :: l, h => by
      have hb := h b (List.mem_cons_self b l)
      have ih := sortInsert_map cmp cmp2 f a l (fun x hx => h x (List.mem_cons_of_mem b hx))
      by_cases hc : cmp a b ≤ 0
      · simp [sortInsert, hb, hc]
      · simp [sortInsert, hb, hc, ih]

theorem arraySort_map {α β : Type} (cmp : α → α → Int) (cmp2 : β → β → Int) (f : α → β) :
    ∀ l : List α, (∀ a ∈ l, ∀ b ∈ l, cmp2 (f a) (f b) = cmp a b) →
      arraySort cmp2 (l.map f) = (arraySort cmp l).map f
  | [], _ => rfl
  | a :: l, h => by
      have ih := arraySort_map cmp cmp2 f l
        (fun x hx y hy => h x (List.mem_cons_of_mem a hx) y (List.mem_cons_of_mem a hy))
      simp only [List.map_cons, arraySort, ih]
      exact sortInsert_map cmp cmp2 f a _
        (fun b hb => h a (List.mem_cons_self a l) b
          (List.mem_cons_of_mem a ((arraySort_perm cmp l).subset hb)))

theorem isFolderId_of_mem (folders : List FolderData) (f : FolderData) (h : f ∈ folders) :
    isFolderId folders f.id = true := by
  simp only [isFolderId, List.find?_isSome]
  exact ⟨f, h, by simp⟩

theorem isFolderId_of_not_mem (folders : List FolderData) (id : String)
    (h : id ∉ folders.map (fun f => f.id)) : isFolderId folders id = false := by
  cases hf : isFolderId folders id with
  | false => rfl
  | true =>
      simp only [isFolderId, List.find?_isSome] at hf
      rcases hf with ⟨f, hf, hid⟩
      exact absurd (List.mem_map.mpr ⟨f, hf, by simpa using hid⟩) h

theorem getCurrentFolderItems_split (js : Builtins) (m : BookmarkManager)
    (hids : (m.folders.map (fun f => f.id) ++ m.bookmarks.map (fun b => b.id)).Nodup) :
    getCurrentFolderItems js m =
      (arraySort (fun a b => js.localeCompare a.title b.title) (folderItems m)).map Item.folder ++
      (arraySort (fun a b => js.localeCompare a.title b.title) (bookmarkItems m)).map
        Item.bookmark := by
  have hdisj := (List.nodup_append.mp hids).2.2
  have hf : ∀ f ∈ folderItems m, isFolderId m.folders f.id = true := fun f hf =>
    isFolderId_of_mem _ f (List.mem_filter.mp hf).1
  have hb : ∀ b ∈ bookmarkItems m, isFolderId m.folders b.id = false := fun b hb =>
    isFolderId_of_not_mem _ _ (fun hmem =>
      hdisj hmem (List.mem_map_of_mem (fun b => b.id) (List.mem_filter.mp hb).1))
  unfold getCurrentFolderItems
  rw [arraySort_append, arraySort_map (fun a b => js.localeCompare a.title b.title),
    arraySort_map (fun a b => js.localeCompare a.title b.title)]
  · intro a ha b hb'
    simp [compareItems, Item.id, Item.title, hb a ha, hb b hb']
  · intro a ha b hb'
    simp [compareItems, Item.id, Item.title, hf a ha, hf b hb']
  · intro a ha b hb'
    rcases List.mem_map.mp ha with ⟨f, hf', rfl⟩
    rcases List.mem_map.mp hb' with ⟨k, hk, rfl⟩
    simp [compareItems, Item.id, hf f hf', hb k hk]

/-! ### C2 -/

/-- C2: with ids unique across folders and bookmarks, an empty search string and a
consistent `localeCompare`, the view set by `filterAndRenderItems` is the folders whose
`parentId` is the current folder id, ordered by title, followed by the bookmarks whose
`parentId` is the current folder id, ordered by title: each such entry once and nothing
else. -/
theorem filterAndRenderItems_empty_search (js : Builtins) (m : BookmarkManager)
    (hids : (m.folders.map (fun f => f.id) ++ m.bookmarks.map (fun b => b.id)).Nodup)
    (hq : m.searchQuery = "")
    (htotal : ∀ a b, js.localeCompare a b ≤ 0 ∨ js.localeCompare b a ≤ 0)
    (htrans : ∀ a b c, js.localeCompare a b ≤ 0 → js.localeCompare b c ≤ 0 →
      js.localeCompare a c ≤ 0) :
    ∃ (fs : List FolderData) (bs : List BookmarkData),
      (filterAndRenderItems js m).filteredItems = fs.map Item.folder ++ bs.map Item.bookmark ∧
      fs.Perm (m.folders.filter (fun f => f.parentId == some m.currentFolderId)) ∧
      bs.Perm (m.bookmarks.filter (fun b => b.parentId == some m.currentFolderId)) ∧
      fs.Pairwise (fun a b => js.localeCompare a.title b.title ≤ 0) ∧
      bs.Pairwise (fun a b => js.localeCompare a.title b.title ≤ 0) ∧
      (filterAndRenderItems js m).filteredItems.Nodup := by
  have hview : (filterAndRenderItems js m).filteredItems = getCurrentFolderItems js m := by
    simp [filterAndRenderItems, hq]
  have hfn : (folderItems m).Nodup :=
    ((List.nodup_append.mp hids).1.of_map _).filter _
  have hbn : (bookmarkItems m).Nodup :=
    ((List.nodup_append.mp hids).2.1.of_map _).filter _
  refine ⟨arraySort (fun a b => js.localeCompare a.title b.title) (folderItems m),
    arraySort (fun a b => js.localeCompare a.title b.title) (bookmarkItems m),
    by rw [hview, getCurrentFolderItems_split js m hids],
    arraySort_perm _ _, arraySort_perm _ _,
    arraySort_sorted (fun (a b : FolderData) => js.localeCompare a.title b.title)
      (fun a b => htotal a.title b.title) (fun a b c => htrans a.title b.title c.title) _,
    arraySort_sorted (fun (a b : BookmarkData) => js.localeCompare a.title b.title)
      (fun a b => htotal a.title b.title) (fun a b c => htrans a.title b.title c.title) _, ?_⟩
  rw [hview, getCurrentFolderItems_split js m hids]
  refine List.nodup_append.mpr ⟨?_, ?_, ?_⟩
  · exact ((arraySort_perm _ _).nodup_iff.mpr hfn).map (fun a b h => by cases h; rfl)
  · exact ((arraySort_perm _ _).nodup_iff.mpr hbn).map (fun a b h => by cases h; rfl)
  · intro x hx hy
    rcases List.mem_map.mp hx with ⟨f, _, rfl⟩
    rcases List.mem_map.mp hy with ⟨b, _, hb⟩
    cases hb

theorem compareCodes_total : ∀ a b : List Char, compareCodes a b ≤ 0 ∨ compareCodes b a ≤ 0
  | [], [] => by simp [compareCodes]
  | [], _ :: _ => by simp [compareCodes]
  | _ :: _, [] => by simp [compareCodes]
  | x :: xs, y :: ys => by
      have ih := compareCodes_total xs ys
      simp only [compareCodes]
      split_ifs <;> omega

theorem compareCodes_trans : ∀ a b c : List Char,
    compareCodes a b ≤ 0 → compareCodes b c ≤ 0 → compareCodes a c ≤ 0
  | [], [], _, _, h => h
  | [], _ :: _, [], _, h => by simp [compareCodes] at h
  | [], _ :: _, _ :: _, _, _ => by simp [compareCodes]
  | _ :: _, [], _, h, _ => by simp [compareCodes] at h
  | _ :: _, _ :: _, [], _, h => by simp [compareCodes] at h
  | x :: xs, y :: ys, z :: zs, h1, h2 => by
      have ih := compareCodes_trans xs ys zs
      simp only [compareCodes] at h1 h2 ⊢
      split_ifs at h1 h2 ⊢ <;> omega

theorem filterAndRenderItems_empty_search_witness :
    (filterAndRenderItems plainBuiltins
        (processBookmarkTree BookmarkManager.initial exampleTree)).filteredItems =
      [Item.folder { id := "10", title := "Work", parentId := some "1", dateAdded := none,
                     children := ["11"] },
       Item.bookmark { id := "12", title := "Home", url := some "https://b.com",
                       parentId := some "1", dateAdded := none }] ∧
    ∃ (fs : List FolderData) (bs : List BookmarkData),
      (filterAndRenderItems plainBuiltins
        (processBookmarkTree BookmarkManager.initial exampleTree)).filteredItems =
          fs.map Item.folder ++ bs.map Item.bookmark ∧
      fs.Perm ((processBookmarkTree BookmarkManager.initial exampleTree).folders.filter
        (fun f => f.parentId == some "1")) ∧
      bs.Perm ((processBookmarkTree BookmarkManager.initial exampleTree).bookmarks.filter
        (fun b => b.parentId == some "1")) ∧
      fs.Pairwise (fun a b => plainBuiltins.localeCompare a.title b.title ≤ 0) ∧
      bs.Pairwise (fun a b => plainBuiltins.localeCompare a.title b.title ≤ 0) ∧
      (filterAndRenderItems plainBuiltins
        (processBookmarkTree BookmarkManager.initial exampleTree)).filteredItems.Nodup :=
  ⟨by decide,
   filterAndRenderItems_empty_search plainBuiltins
    (processBookmarkTree BookmarkManager.initial exampleTree) (by decide) rfl
    (fun a b => compareCodes_total a.data b.data)
    (fun a b c => compareCodes_trans a.data b.data c.data)⟩

/-! ### C4 -/

theorem includes_empty (q : String) (hq : q ≠ "") : includes "" q = false := by
  have hd : q.data ≠ [] := fun h => hq (String.ext h)
  cases hq' : q.data with
  | nil => exact absurd hq' hd
  | cons c cs => simp [includes, hq', List.isPrefixOf]

theorem matchesSearch_eq_searchHit (js : Builtins) (q : String) (hq : q ≠ "")
    (hlower : js.toLowerCase "" = "") (item : Item) :
    matchesSearch js q item = searchHit js q item := by
  cases item with
  | folder f => simp [matchesSearch, searchHit, Item.title, Item.url]
  | bookmark b =>
      simp only [matchesSearch, searchHit, Item.title, Item.url]
      cases hu : b.url with
      | none => rfl
      | some u =>
          by_cases hne : u = ""
          · subst hne
            simp [hlower, includes_empty q hq]
          · have hb : (u != "") = true := by simpa using hne
            simp only [hb, Bool.true_and]

theorem mem_getCurrentFolderItems (js : Builtins) (m : BookmarkManager) (item : Item)
    (h : item ∈ getCurrentFolderItems js m) : item.parentId = some m.currentFolderId := by
  have h' := (arraySort_perm _ _).subset h
  rcases List.mem_append.mp h' with h' | h'
  · rcases List.mem_map.mp h' with ⟨f, hf, rfl⟩
    simpa [folderItems, Item.parentId] using (List.mem_filter.mp hf).2
  · rcases List.mem_map.mp h' with ⟨b, hb, rfl⟩
    simpa [bookmarkItems, Item.parentId] using (List.mem_filter.mp hb).2

/-- C4: with a non-empty search string the view set by `filterAndRenderItems` is the
subsequence of the scoped, sorted children of the current folder made of the items whose
lowercased title contains the string or which are bookmarks whose lowercased url
contains it; a folder is kept only on a title match, and every item kept has the
current folder id as `parentId`. -/
theorem filterAndRenderItems_search (js : Builtins) (m : BookmarkManager)
    (hq : m.searchQuery ≠ "") (hlower : js.toLowerCase "" = "") :
    (filterAndRenderItems js m).filteredItems =
      (getCurrentFolderItems js m).filter (searchHit js m.searchQuery) ∧
    (filterAndRenderItems js m).filteredItems.Sublist (getCurrentFolderItems js m) ∧
    (∀ f, Item.folder f ∈ (filterAndRenderItems js m).filteredItems →
      includes (js.toLowerCase f.title) m.searchQuery = true) ∧
    (∀ item ∈ (filterAndRenderItems js m).filteredItems,
      item.parentId = some m.currentFolderId) := by
  have hview : (filterAndRenderItems js m).filteredItems =
      (getCurrentFolderItems js m).filter (searchHit js m.searchQuery) := by
    have hfun : matchesSearch js m.searchQuery = searchHit js m.searchQuery :=
      funext (matchesSearch_eq_searchHit js m.searchQuery hq hlower)
    simp [filterAndRenderItems, hq, hfun]
  refine ⟨hview, ?_, ?_, ?_⟩
  · rw [hview]
    exact List.filter_sublist _
  · intro f hf
    rw [hview] at hf
    simpa [searchHit] using (List.mem_filter.mp hf).2
  · intro item hitem
    rw [hview] at hitem
    exact mem_getCurrentFolderItems js m item (List.mem_filter.mp hitem).1

theorem filterAndRenderItems_search_witness :
    (filterAndRenderItems plainBuiltins
        { processBookmarkTree BookmarkManager.initial exampleTree with
          searchQuery := "b.com" }).filteredItems =
      [Item.bookmark { id := "12", title := "Home", url := some "https://b.com",
                       parentId := some "1", dateAdded := none }] ∧
    (∀ item ∈ (filterAndRenderItems plainBuiltins
        { processBookmarkTree BookmarkManager.initial exampleTree with
          searchQuery := "b.com" }).filteredItems, item.parentId = some "1") :=
  ⟨(filterAndRenderItems_search plainBuiltins
      { processBookmarkTree BookmarkManager.initial exampleTree with
        searchQuery := "b.com" } (by decide) rfl).1.trans (by decide),
   (filterAndRenderItems_search plainBuiltins
      { processBookmarkTree BookmarkManager.initial exampleTree with
        searchQuery := "b.com" } (by decide) rfl).2.2.2⟩

/-! ### C7 -/

/-- C7: for a parsed document without a `bookmarks` property `importBookmarks` sends no
request to the host, leaves the manager (so `folders` and `bookmarks`) as it was and adds
exactly one notification, of type error. -/
theorem importBookmarks_missing_bookmarks {σ : Type} (js : Builtins) (clock : Clock)
    (H : HostStore σ) (importData : ImportData) (w : Popup σ)
    (h : importData.bookmarks = none) :
    (importBookmarks js clock H (some (some importData)) w).requests = w.requests ∧
    (importBookmarks js clock H (some (some importData)) w).host = w.host ∧
    (importBookmarks js clock H (some (some importData)) w).manager = w.manager ∧
    (importBookmarks js clock H (some (some importData)) w).notifications =
      w.notifications ++
        [{ message := "Failed to import bookmarks. Please check the file format.",
           type := NotificationType.error }] := by
  simp [importBookmarks, h, importFailed, showError, showNotification, consoleError]

theorem importBookmarks_missing_bookmarks_witness :
    (importBookmarks plainBuiltins exampleClock (treeStore decimalId)
      (some (some { version := some "1.0", exportDate := none, bookmarks := none }))
      examplePopup).requests = examplePopup.requests ∧
    (importBookmarks plainBuiltins exampleClock (treeStore decimalId)
      (some (some { version := some "1.0", exportDate := none, bookmarks := none }))
      examplePopup).host = examplePopup.host ∧
    (importBookmarks plainBuiltins exampleClock (treeStore decimalId)
      (some (some { version := some "1.0", exportDate := none, bookmarks := none }))
      examplePopup).manager = examplePopup.manager ∧
    (importBookmarks plainBuiltins exampleClock (treeStore decimalId)
      (some (some { version := some "1.0", exportDate := none, bookmarks := none }))
      examplePopup).notifications =
      examplePopup.notifications ++
        [{ message := "Failed to import bookmarks. Please check the file format.",
           type := NotificationType.error }] :=
  importBookmarks_missing_bookmarks plainBuiltins exampleClock (treeStore decimalId)
    { version := some "1.0", exportDate := none, bookmarks := none } examplePopup rfl

/-! ### C8 -/

/-- C8, as stated, fails: a name made of blanks is empty after trimming, and
`createNewFolder` then shows no notification at all, so no error notification. -/
theorem createNewFolder_blank_shows_nothing :
    trim "   " = "" ∧
    (createNewFolder plainBuiltins (treeStore decimalId)
      { examplePopup with folderNameInput := "   " }).notifications = [] ∧
    (createNewFolder plainBuiltins (treeStore decimalId)
      { examplePopup with folderNameInput := "   " }).nameInputFocused = true := by
  decide

/-- C8, amended: when the entered name is empty after trimming, `createNewFolder` only puts
the focus on the name input: no request, no notification, nothing else changed; for
every other name it sends a creation request for a folder under the current folder id
titled with the trimmed name, followed at most by the tree retrieval of the reload. -/
theorem createNewFolder_validation {σ : Type} (js : Builtins) (H : HostStore σ)
    (w : Popup σ) :
    (trim w.folderNameInput = "" →
      createNewFolder js H w = { w with nameInputFocused := true }) ∧
    (trim w.folderNameInput ≠ "" →
      ∃ rest : List HostRequest,
        (createNewFolder js H w).requests =
          w.requests ++
            HostRequest.create { parentId := w.manager.currentFolderId,
                                 title := trim w.folderNameInput, url := none } :: rest ∧
        ∀ r ∈ rest, r = HostRequest.getTree) := by
  constructor
  · intro h
    simp [createNewFolder, h]
  · intro h
    simp only [createNewFolder, h, if_false]
    cases hc : H.create w.host
        { parentId := w.manager.currentFolderId, title := trim w.folderNameInput,
          url := none } with
    | none =>
        exact ⟨[], by simp [showError, showNotification, consoleError], by simp⟩
    | some r =>
        refine ⟨[HostRequest.getTree], ?_, by simp⟩
        simp only [showSuccess, showNotification, loadBookmarks, hideNewFolderModal]
        cases hg : H.getTree r.2 <;>
          simp [hg, showError, showNotification, consoleError]

theorem createNewFolder_validation_witness :
    createNewFolder plainBuiltins (treeStore decimalId)
        { examplePopup with folderNameInput := " \t " } =
      { examplePopup with folderNameInput := " \t ", nameInputFocused := true } ∧
    ∃ rest : List HostRequest,
      (createNewFolder plainBuiltins (treeStore decimalId)
        { examplePopup with folderNameInput := " Work " }).requests =
        [] ++ HostRequest.create { parentId := "1", title := "Work", url := none } :: rest ∧
      ∀ r ∈ rest, r = HostRequest.getTree :=
  ⟨(createNewFolder_validation plainBuiltins (treeStore decimalId)
      { examplePopup with folderNameInput := " \t " }).1 (by decide),
   (createNewFolder_validation plainBuiltins (treeStore decimalId)
      { examplePopup with folderNameInput := " Work " }).2 (by decide)⟩

/-! ### C9 -/

mutual
theorem importBookmarkNode_frame {σ : Type} (H : HostStore σ) :
    ∀ (node : Node) (parentId : String) (w : Popup σ),
      (importBookmarkNode H node parentId w).1.manager = w.manager ∧
      (importBookmarkNode H node parentId w).1.notifications = w.notifications
  | .leaf _ t u _, parentId, w => by
      cases u with
      | none => simp [importBookmarkNode]
      | some u =>
          by_cases hu : u = ""
          · simp [importBookmarkNode, hu]
          · simp only [importBookmarkNode, hu, if_false]
            cases H.create w.host
              { parentId := parentId, title := orElse t "Imported Bookmark", url := some u } <;>
              simp
  | .folder _ t _ _ children, parentId, w => by
      simp only [importBookmarkNode]
      cases hc : H.create w.host
          { parentId := parentId, title := orElse t "Imported Folder", url := none } with
      | none => simp
      | some r =>
          have ih := importChildren_frame H children r.1
            { w with
              requests := w.requests ++
                [HostRequest.create
                  { parentId := parentId, title := orElse t "Imported Folder", url := none }],
              host := r.2 }
          simpa using ih
theorem importChildren_frame {σ : Type} (H : HostStore σ) :
    ∀ (l : List Node) (folderId : String) (w : Popup σ),
      (importChildren H l folderId w).1.manager = w.manager ∧
      (importChildren H l folderId w).1.notifications = w.notifications
  | [], _, w => by simp [importChildren]
  | c :: rest, folderId, w => by
      have h1 := importBookmarkNode_frame H c folderId w
      simp only [importChildren]
      cases hr : importBookmarkNode H c folderId w with
      | mk w1 ok =>
          rw [hr] at h1
          cases ok with
          | false => simpa using h1
          | true =>
              have h2 := importChildren_frame H rest folderId w1
              simp only [h2.1, h2.2]
              exact h1
end

theorem loadBookmarks_of_getTree {σ : Type} (js : Builtins) (H : HostStore σ) (w : Popup σ)
    (tree : List Node) (h : H.getTree w.host = some tree) :
    (loadBookmarks js H w).host = w.host ∧
    (loadBookmarks js H w).manager.folders = (processBookmarkTree w.manager tree).folders ∧
    (loadBookmarks js H w).manager.bookmarks =
      (processBookmarkTree w.manager tree).bookmarks ∧
    (loadBookmarks js H w).notifications = w.notifications := by
  have hm : ∀ m : BookmarkManager, (filterAndRenderItems js m).folders = m.folders ∧
      (filterAndRenderItems js m).bookmarks = m.bookmarks := by
    intro m
    simp only [filterAndRenderItems]
    split <;> exact ⟨rfl, rfl⟩
  simp only [loadBookmarks, h]
  exact ⟨trivial, (hm _).1, (hm _).2, trivial⟩

/-- C9, as stated, fails for `exportBookmarks`: it succeeds and shows its success
notification, but performs no reload, so a snapshot that differs from the normalized
host tree (here the one of a popup whose first load has not answered yet) still differs
from it afterwards. -/
theorem exportBookmarks_does_not_reload :
    (exportBookmarks exampleClock (treeStore decimalId) examplePopup).notifications =
      [{ message := "Bookmarks exported successfully!", type := NotificationType.success }] ∧
    (treeStore decimalId).getTree
      (exportBookmarks exampleClock (treeStore decimalId) examplePopup).host =
        some exampleTree ∧
    (exportBookmarks exampleClock (treeStore decimalId) examplePopup).manager.folders ≠
      (processBookmarkTree
        (exportBookmarks exampleClock (treeStore decimalId) examplePopup).manager
        exampleTree).folders :=
  ⟨by decide, rfl, by decide⟩

/-- C9, amended: `createNewFolder`, `deleteItem` and `importBookmarks`, when their requests
to the host and the tree retrieval of the reload succeed, leave the snapshot equal to
`processBookmarkTree` of the tree the host holds afterwards and add exactly one
notification, of type success; `exportBookmarks`, when its tree retrieval succeeds,
offers the document and adds one success notification, without a reload: the manager is
left as it was. -/
theorem facade_success {σ : Type} (js : Builtins) (clock : Clock) (H : HostStore σ)
    (w : Popup σ) :
    (∀ (id : String) (host : σ) (tree : List Node),
      trim w.folderNameInput ≠ "" →
      H.create w.host { parentId := w.manager.currentFolderId,
                        title := trim w.folderNameInput, url := none } = some (id, host) →
      H.getTree host = some tree →
      (createNewFolder js H w).host = host ∧
      (createNewFolder js H w).manager.folders = (processBookmarkTree w.manager tree).folders ∧
      (createNewFolder js H w).manager.bookmarks =
        (processBookmarkTree w.manager tree).bookmarks ∧
      (createNewFolder js H w).notifications =
        w.notifications ++
          [{ message := "Folder created successfully!", type := NotificationType.success }]) ∧
    (∀ (itemId : String) (host : σ) (tree : List Node),
      H.removeTree w.host itemId = some host →
      H.getTree host = some tree →
      (deleteItem js H true itemId w).host = host ∧
      (deleteItem js H true itemId w).manager.folders =
        (processBookmarkTree w.manager tree).folders ∧
      (deleteItem js H true itemId w).manager.bookmarks =
        (processBookmarkTree w.manager tree).bookmarks ∧
      (deleteItem js H true itemId w).notifications =
        w.notifications ++
          [{ message := "Item deleted successfully!", type := NotificationType.success }]) ∧
    (∀ (importData : ImportData) (bookmarks : List Node) (node : Node) (id : String)
        (host : σ) (w1 : Popup σ) (tree : List Node),
      importData.bookmarks = some bookmarks →
      bookmarks.head? = some node →
      H.create w.host { parentId := w.manager.currentFolderId,
                        title := "Imported Bookmarks - " ++ clock.localeDateString,
                        url := none } = some (id, host) →
      importBookmarkNode H node id
        { w with
          requests := w.requests ++
            [HostRequest.create
              { parentId := w.manager.currentFolderId,
                title := "Imported Bookmarks - " ++ clock.localeDateString, url := none }],
          host := host } = (w1, true) →
      H.getTree w1.host = some tree →
      (importBookmarks js clock H (some (some importData)) w).host = w1.host ∧
      (importBookmarks js clock H (some (some importData)) w).manager.folders =
        (processBookmarkTree w.manager tree).folders ∧
      (importBookmarks js clock H (some (some importData)) w).manager.bookmarks =
        (processBookmarkTree w.manager tree).bookmarks ∧
      (importBookmarks js clock H (some (some importData)) w).notifications =
        w.notifications ++
          [{ message := "Bookmarks imported successfully!",
             type := NotificationType.success }]) ∧
    (∀ tree : List Node,
      H.getTree w.host = some tree →
      (exportBookmarks clock H w).host = w.host ∧
      (exportBookmarks clock H w).manager = w.manager ∧
      (exportBookmarks clock H w).requests = w.requests ++ [HostRequest.getTree] ∧
      (exportBookmarks clock H w).downloads =
        w.downloads ++
          [{ filename := "bookmarks-export-" ++ isoDay clock ++ ".json",
             content := { version := "1.0", exportDate := clock.isoString,
                          bookmarks := tree } }] ∧
      (exportBookmarks clock H w).notifications =
        w.notifications ++
          [{ message := "Bookmarks exported successfully!",
             type := NotificationType.success }]) := by
  refine ⟨?_, ?_, ?_, ?_⟩
  · intro id host tree hname hcreate htree
    have hl := loadBookmarks_of_getTree js H
      (hideNewFolderModal
        { w with
          requests := w.requests ++
            [HostRequest.create { parentId := w.manager.currentFolderId,
                                  title := trim w.folderNameInput, url := none }],
          host := host }) tree htree
    simp only [createNewFolder, hname, if_false, hcreate, showSuccess, showNotification]
    exact ⟨hl.1, hl.2.1, hl.2.2.1, by rw [hl.2.2.2]; rfl⟩
  · intro itemId host tree hremove htree
    have hl := loadBookmarks_of_getTree js H
      { w with requests := w.requests ++ [HostRequest.removeTree itemId], host := host }
      tree htree
    simp only [deleteItem, Bool.not_true, Bool.false_eq_true, if_false, hremove, showSuccess,
      showNotification]
    exact ⟨hl.1, hl.2.1, hl.2.2.1, by rw [hl.2.2.2]⟩
  · intro importData bookmarks node id host w1 tree hdoc hhead hcreate himport htree
    have hframe := importBookmarkNode_frame H node id
      { w with
        requests := w.requests ++
          [HostRequest.create
            { parentId := w.manager.currentFolderId,
              title := "Imported Bookmarks - " ++ clock.localeDateString, url := none }],
        host := host }
    rw [himport] at hframe
    have hl := loadBookmarks_of_getTree js H w1 tree htree
    simp only [importBookmarks, hdoc, hcreate, hhead, himport, showSuccess, showNotification]
    refine ⟨hl.1, ?_, ?_, ?_⟩
    · rw [hl.2.1, processBookmarkTree_folders, processBookmarkTree_folders]
    · rw [hl.2.2.1, processBookmarkTree_bookmarks, processBookmarkTree_bookmarks]
    · rw [hl.2.2.2, hframe.2]
  · intro tree htree
    simp [exportBookmarks, htree, showSuccess, showNotification]

theorem facade_success_witness :
    (createNewFolder plainBuiltins (treeStore decimalId)
        { barePopup with folderNameInput := " Work " }).notifications =
      [{ message := "Folder created successfully!", type := NotificationType.success }] ∧
    (deleteItem plainBuiltins (treeStore decimalId) true "1" barePopup).manager.folders =
      (processBookmarkTree barePopup.manager [.folder "0" (some "") none none []]).folders ∧
    (importBookmarks plainBuiltins exampleClock (treeStore decimalId)
        (some (some { version := none, exportDate := none,
                      bookmarks := some [.leaf "7" (some "A") (some "https://a.com") none] }))
        barePopup).notifications =
      [{ message := "Bookmarks imported successfully!", type := NotificationType.success }] ∧
    (exportBookmarks exampleClock (treeStore decimalId) barePopup).manager =
      barePopup.manager :=
  ⟨((facade_success plainBuiltins exampleClock (treeStore decimalId)
        { barePopup with folderNameInput := " Work " }).1 "100"
        { tree := appendUnderForest "1" [.folder "100" (some "Work") none none []] bareTree,
          nextId := 101 }
        (appendUnderForest "1" [.folder "100" (some "Work") none none []] bareTree)
        (by decide) rfl rfl).2.2.2,
   ((facade_success plainBuiltins exampleClock (treeStore decimalId) barePopup).2.1 "1"
        { tree := [.folder "0" (some "") none none []], nextId := 100 }
        [.folder "0" (some "") none none []] rfl rfl).2.1,
   ((facade_success plainBuiltins exampleClock (treeStore decimalId) barePopup).2.2.1
        { version := none, exportDate := none,
          bookmarks := some [.leaf "7" (some "A") (some "https://a.com") none] }
        [.leaf "7" (some "A") (some "https://a.com") none]
        (.leaf "7" (some "A") (some "https://a.com") none) "100"
        { tree := appendUnderForest "1"
            [.folder "100" (some "Imported Bookmarks - 5/1/2024") none none []] bareTree,
          nextId := 101 }
        { barePopup with
          requests :=
            [HostRequest.create { parentId := "1", title := "Imported Bookmarks - 5/1/2024",
                                  url := none },
             HostRequest.create { parentId := "100", title := "A",
                                  url := some "https://a.com" }],
          host :=
            { tree := appendUnderForest "100"
                [.leaf "101" (some "A") (some "https://a.com") none]
                (appendUnderForest "1"
                  [.folder "100" (some "Imported Bookmarks - 5/1/2024") none none []]
                  bareTree),
              nextId := 102 } }
        (appendUnderForest "100"
          [.leaf "101" (some "A") (some "https://a.com") none]
          (appendUnderForest "1"
            [.folder "100" (some "Imported Bookmarks - 5/1/2024") none none []] bareTree))
        rfl rfl rfl rfl rfl).2.2.2,
   ((facade_success plainBuiltins exampleClock (treeStore decimalId) barePopup).2.2.2
        bareTree rfl).2.1⟩

/-! ### C6 -/

/-- C6, as stated, fails: the root of the host tree has the empty title, and the folder
that the import creates for it under the new container "100" is titled "Imported
Folder", so the created subtree does not carry the titles of the first root. -/
theorem exportThenImport_retitles_root :
    bareTree.map Node.title = [some ""] ∧
    (findNodeForest "100"
        (exportThenImport plainBuiltins exampleClock (treeStore decimalId)
          barePopup).host.tree).map
      (fun container => container.childList.map (fun created => created.title)) =
        some [some "Imported Folder"] ∧
    (findNodeForest "100"
        (exportThenImport plainBuiltins exampleClock (treeStore decimalId)
          barePopup).host.tree).map
      (fun container => container.childList.map
        (fun created => bareTree.map (fun root => sameShape root created))) =
        some [[false]] := by
  decide

/-! #### The tree-shaped host under an import -/

mutual
theorem appendUnder_nil (p : String) : ∀ n : Node, appendUnder p [] n = n
  | .leaf _ _ _ _ => by simp [appendUnder]
  | .folder id t u d children => by
      simp [appendUnder, appendUnderForest_nil p children]
theorem appendUnderForest_nil (p : String) : ∀ l : List Node, appendUnderForest p [] l = l
  | [] => by simp [appendUnderForest]
  | c :: rest => by
      simp [appendUnderForest, appendUnder_nil p c, appendUnderForest_nil p rest]
end

theorem appendUnderForest_append (p : String) (ns : List Node) :
    ∀ l1 l2 : List Node,
      appendUnderForest p ns (l1 ++ l2) = appendUnderForest p ns l1 ++ appendUnderForest p ns l2
  | [], l2 => by simp [appendUnderForest]
  | c :: rest, l2 => by
      simp [appendUnderForest, appendUnderForest_append p ns rest l2]

theorem forestFolderIds_append : ∀ l1 l2 : List Node,
    forestFolderIds (l1 ++ l2) = forestFolderIds l1 ++ forestFolderIds l2
  | [], l2 => by simp [forestFolderIds]
  | c :: rest, l2 => by simp [forestFolderIds, forestFolderIds_append rest l2]

theorem forestIds_append : ∀ l1 l2 : List Node,
    forestIds (l1 ++ l2) = forestIds l1 ++ forestIds l2
  | [], l2 => by simp [forestIds]
  | c :: rest, l2 => by simp [forestIds, forestIds_append rest l2]

theorem folderId_mem_forestIds (l : List Node) (x : String) (h : x ∈ forestFolderIds l) :
    x ∈ forestIds l :=
  (forestIds_perm l).symm.subset (List.mem_append_left _ h)

mutual
theorem appendUnder_of_not_mem (p : String) (ns : List Node) :
    ∀ n : Node, p ∉ nodeFolderIds n → appendUnder p ns n = n
  | .leaf _ _ _ _, _ => by simp [appendUnder]
  | .folder id t u d children, h => by
      simp only [nodeFolderIds, List.mem_cons, not_or] at h
      have hne : ¬ id = p := fun e => h.1 e.symm
      simp [appendUnder, hne, appendUnderForest_of_not_mem p ns children h.2]
theorem appendUnderForest_of_not_mem (p : String) (ns : List Node) :
    ∀ l : List Node, p ∉ forestFolderIds l → appendUnderForest p ns l = l
  | [], _ => by simp [appendUnderForest]
  | c :: rest, h => by
      simp only [forestFolderIds, List.mem_append, not_or] at h
      simp [appendUnderForest, appendUnder_of_not_mem p ns c h.1,
        appendUnderForest_of_not_mem p ns rest h.2]
end

mutual
theorem appendUnder_into_new (P I : String) (t u : Option String) (d : Option Nat)
    (done ns : List Node) (hdone : I ∉ forestFolderIds done) :
    ∀ n : Node, I ∉ nodeFolderIds n →
      appendUnder I ns (appendUnder P [.folder I t u d done] n) =
        appendUnder P [.folder I t u d (done ++ ns)] n
  | .leaf _ _ _ _, _ => by simp [appendUnder]
  | .folder id t2 u2 d2 children, h => by
      simp only [nodeFolderIds, List.mem_cons, not_or] at h
      have hne : ¬ id = I := fun e => h.1 e.symm
      have ih := appendUnderForest_into_new P I t u d done ns hdone children h.2
      by_cases hp : id = P
      · simp [appendUnder, hp, hne, appendUnderForest_append, appendUnderForest, ih,
          appendUnderForest_of_not_mem I ns done hdone]
        intro hPI
        exact absurd (hp.trans hPI) hne
      · simp [appendUnder, hp, hne, ih]
theorem appendUnderForest_into_new (P I : String) (t u : Option String) (d : Option Nat)
    (done ns : List Node) (hdone : I ∉ forestFolderIds done) :
    ∀ l : List Node, I ∉ forestFolderIds l →
      appendUnderForest I ns (appendUnderForest P [.folder I t u d done] l) =
        appendUnderForest P [.folder I t u d (done ++ ns)] l
  | [], _ => by simp [appendUnderForest]
  | c :: rest, h => by
      simp only [forestFolderIds, List.mem_append, not_or] at h
      simp [appendUnderForest, appendUnder_into_new P I t u d done ns hdone c h.1,
        appendUnderForest_into_new P I t u d done ns hdone rest h.2]
end

mutual
theorem new_folder_mem_appendUnder (P : String) (ns : List Node) (x : String)
    (hx : x ∈ forestFolderIds ns) :
    ∀ n : Node, P ∈ nodeFolderIds n → x ∈ nodeFolderIds (appendUnder P ns n)
  | .leaf _ _ _ _, h => by simp [nodeFolderIds] at h
  | .folder id t u d children, h => by
      simp only [nodeFolderIds, List.mem_cons] at h
      by_cases hp : id = P
      · simp [appendUnder, hp, nodeFolderIds, forestFolderIds_append, hx]
      · have hc : P ∈ forestFolderIds children := by
          rcases h with h | h
          · exact absurd h.symm hp
          · exact h
        simp [appendUnder, hp, nodeFolderIds,
          new_folder_mem_appendUnderForest P ns x hx children hc]
theorem new_folder_mem_appendUnderForest (P : String) (ns : List Node) (x : String)
    (hx : x ∈ forestFolderIds ns) :
    ∀ l : List Node, P ∈ forestFolderIds l → x ∈ forestFolderIds (appendUnderForest P ns l)
  | [], h => by simp [forestFolderIds] at h
  | c :: rest, h => by
      simp only [forestFolderIds, List.mem_append] at h
      simp only [appendUnderForest, forestFolderIds, List.mem_append]
      rcases h with h | h
      · exact Or.inl (new_folder_mem_appendUnder P ns x hx c h)
      · exact Or.inr (new_folder_mem_appendUnderForest P ns x hx rest h)
end

mutual
theorem mem_ids_appendUnder (P : String) (ns : List Node) (x : String) :
    ∀ n : Node, x ∈ nodeIds (appendUnder P ns n) → x ∈ nodeIds n ∨ x ∈ forestIds ns
  | .leaf _ _ _ _, h => by
      simp only [appendUnder] at h
      exact Or.inl h
  | .folder id t u d children, h => by
      by_cases hp : id = P
      · simp only [appendUnder, hp, if_true, nodeIds, List.mem_cons, forestIds_append,
          List.mem_append] at h
        rcases h with h | h | h
        · exact Or.inl (by simp [nodeIds, hp, h])
        · rcases mem_ids_appendUnderForest P ns x children h with h | h
          · exact Or.inl (by simp [nodeIds, h])
          · exact Or.inr h
        · exact Or.inr h
      · simp only [appendUnder, hp, if_false, nodeIds, List.mem_cons] at h
        rcases h with h | h
        · exact Or.inl (by simp [nodeIds, h])
        · rcases mem_ids_appendUnderForest P ns x children h with h | h
          · exact Or.inl (by simp [nodeIds, h])
          · exact Or.inr h
theorem mem_ids_appendUnderForest (P : String) (ns : List Node) (x : String) :
    ∀ l : List Node, x ∈ forestIds (appendUnderForest P ns l) →
      x ∈ forestIds l ∨ x ∈ forestIds ns
  | [], h => by simp [appendUnderForest, forestIds] at h
  | c :: rest, h => by
      simp only [appendUnderForest, forestIds, List.mem_append] at h
      rcases h with h | h
      · rcases mem_ids_appendUnder P ns x c h with h | h
        · exact Or.inl (by simp [forestIds, h])
        · exact Or.inr h
      · rcases mem_ids_appendUnderForest P ns x rest h with h | h
        · exact Or.inl (by simp [forestIds, h])
        · exact Or.inr h
end

mutual
theorem importedNode_ids (mkId : Nat → String) : ∀ (n : Node) (k : Nat),
    k ≤ (importedNode mkId n k).2 ∧
    ∀ x ∈ forestIds (importedNode mkId n k).1,
      ∃ j, k ≤ j ∧ j < (importedNode mkId n k).2 ∧ x = mkId j
  | .leaf _ t u _, k => by
      by_cases hu : truthy u = true
      · simp only [importedNode, hu, if_true, forestIds, nodeIds, List.append_nil,
          List.mem_singleton]
        exact ⟨Nat.le_succ k, fun x hx => ⟨k, le_refl k, Nat.lt_succ_self k, hx⟩⟩
      · simp [importedNode, hu, forestIds]
  | .folder _ t _ _ children, k => by
      have ih := importedForest_ids mkId children (k + 1)
      simp only [importedNode, forestIds, nodeIds, List.append_nil, List.mem_cons]
      refine ⟨by omega, ?_⟩
      intro x hx
      rcases hx with hx | hx
      · exact ⟨k, le_refl k, by omega, hx⟩
      · rcases ih.2 x hx with ⟨j, hj1, hj2, hj3⟩
        exact ⟨j, by omega, hj2, hj3⟩
theorem importedForest_ids (mkId : Nat → String) : ∀ (l : List Node) (k : Nat),
    k ≤ (importedForest mkId l k).2 ∧
    ∀ x ∈ forestIds (importedForest mkId l k).1,
      ∃ j, k ≤ j ∧ j < (importedForest mkId l k).2 ∧ x = mkId j
  | [], k => by simp [importedForest, forestIds]
  | c :: rest, k => by
      have h1 := importedNode_ids mkId c k
      have h2 := importedForest_ids mkId rest (importedNode mkId c k).2
      simp only [importedForest, forestIds_append, List.mem_append]
      refine ⟨by omega, ?_⟩
      intro x hx
      rcases hx with hx | hx
      · rcases h1.2 x hx with ⟨j, hj1, hj2, hj3⟩
        exact ⟨j, hj1, by omega, hj3⟩
      · rcases h2.2 x hx with ⟨j, hj1, hj2, hj3⟩
        exact ⟨j, by omega, hj2, hj3⟩
end

theorem treeStore_create_folder (mkId : Nat → String) (s : TreeStore) (p title : String)
    (h : p ∈ forestFolderIds s.tree) :
    (treeStore mkId).create s { parentId := p, title := title, url := none } =
      some (mkId s.nextId,
        { tree := appendUnderForest p [.folder (mkId s.nextId) (some title) none none []] s.tree,
          nextId := s.nextId + 1 }) := by
  simp [treeStore, h]

theorem treeStore_create_bookmark (mkId : Nat → String) (s : TreeStore)
    (p title u : String) (h : p ∈ forestFolderIds s.tree) :
    (treeStore mkId).create s { parentId := p, title := title, url := some u } =
      some (mkId s.nextId,
        { tree := appendUnderForest p [.leaf (mkId s.nextId) (some title) (some u) none] s.tree,
          nextId := s.nextId + 1 }) := by
  simp [treeStore, h]

mutual
theorem importBookmarkNode_treeStore (mkId : Nat → String) (hinj : Function.Injective mkId) :
    ∀ (node : Node) (pid : String) (w : Popup TreeStore),
      pid ∈ forestFolderIds w.host.tree →
      (∀ k, w.host.nextId ≤ k → mkId k ∉ forestIds w.host.tree) →
      (importBookmarkNode (treeStore mkId) node pid w).2 = true ∧
      (importBookmarkNode (treeStore mkId) node pid w).1.host =
        { tree := appendUnderForest pid (importedNode mkId node w.host.nextId).1 w.host.tree,
          nextId := (importedNode mkId node w.host.nextId).2 }
  | .leaf _ t u _, pid, w, hpid, _ => by
      cases u with
      | none => simp [importBookmarkNode, importedNode, truthy, appendUnderForest_nil]
      | some u =>
          by_cases hu : u = ""
          · simp [importBookmarkNode, importedNode, truthy, hu, appendUnderForest_nil]
          · simp [importBookmarkNode, importedNode, truthy, hu,
              treeStore_create_bookmark mkId w.host pid _ u hpid]
  | .folder _ t _ _ children, pid, w, hpid, hfresh => by
      have hI : mkId w.host.nextId ∉ forestIds w.host.tree := hfresh _ (le_refl _)
      have ih := importChildren_treeStore mkId hinj children (mkId w.host.nextId)
        { w with
          requests := w.requests ++
            [HostRequest.create
              { parentId := pid, title := orElse t "Imported Folder", url := none }],
          host :=
            { tree := appendUnderForest pid
                [.folder (mkId w.host.nextId) (some (orElse t "Imported Folder")) none none []]
                w.host.tree,
              nextId := w.host.nextId + 1 } }
        pid (some (orElse t "Imported Folder")) none none [] w.host.tree w.host.nextId
        rfl hpid rfl (Nat.lt_succ_self _) hfresh (by simp [forestIds])
      simp only [importBookmarkNode, treeStore_create_folder mkId w.host pid _ hpid,
        importedNode]
      simpa using ih
theorem importChildren_treeStore (mkId : Nat → String) (hinj : Function.Injective mkId) :
    ∀ (l : List Node) (I : String) (w : Popup TreeStore) (P : String)
      (t u : Option String) (d : Option Nat) (done base : List Node) (i0 : Nat),
      w.host.tree = appendUnderForest P [.folder I t u d done] base →
      P ∈ forestFolderIds base →
      I = mkId i0 → i0 < w.host.nextId →
      (∀ k, i0 ≤ k → mkId k ∉ forestIds base) →
      (∀ x ∈ forestIds done, ∃ j, i0 < j ∧ j < w.host.nextId ∧ x = mkId j) →
      (importChildren (treeStore mkId) l I w).2 = true ∧
      (importChildren (treeStore mkId) l I w).1.host =
        { tree := appendUnderForest P
            [.folder I t u d (done ++ (importedForest mkId l w.host.nextId).1)] base,
          nextId := (importedForest mkId l w.host.nextId).2 }
  | [], I, w, P, t, u, d, done, base, i0, htree, _, _, _, _, _ => by
      simp only [importChildren, importedForest, List.append_nil, true_and]
      rw [← htree]
  | c :: rest, I, w, P, t, u, d, done, base, i0, htree, hP, hI, hi0, hbase, hdone => by
      have hIbase : I ∉ forestIds base := hI ▸ hbase i0 (le_refl i0)
      have hIdone : I ∉ forestIds done := by
        intro hmem
        rcases hdone I hmem with ⟨j, hj1, _, hj3⟩
        have := hinj (hI.symm.trans hj3)
        omega
      have hImem : I ∈ forestFolderIds w.host.tree := by
        rw [htree]
        exact new_folder_mem_appendUnderForest P _ I (by simp [forestFolderIds, nodeFolderIds])
          base hP
      have hfresh : ∀ k, w.host.nextId ≤ k → mkId k ∉ forestIds w.host.tree := by
        intro k hk hmem
        rw [htree] at hmem
        rcases mem_ids_appendUnderForest P _ (mkId k) base hmem with h | h
        · exact hbase k (by omega) h
        · simp only [forestIds, nodeIds, List.append_nil, List.mem_cons] at h
          rcases h with h | h
          · have := hinj (h.trans hI)
            omega
          · rcases hdone _ h with ⟨j, _, hj2, hj3⟩
            have := hinj hj3
            omega
      have hA := importBookmarkNode_treeStore mkId hinj c I w hImem hfresh
      have hrange := importedNode_ids mkId c w.host.nextId
      cases hr : importBookmarkNode (treeStore mkId) c I w with
      | mk w1 ok =>
          rw [hr] at hA
          obtain ⟨hok, hhost⟩ := hA
          simp only at hok hhost
          subst hok
          have htree1 : w1.host.tree =
              appendUnderForest P
                [.folder I t u d (done ++ (importedNode mkId c w.host.nextId).1)] base := by
            rw [hhost, htree]
            exact appendUnderForest_into_new P I t u d done _
              (fun h => hIdone (folderId_mem_forestIds _ _ h)) base
              (fun h => hIbase (folderId_mem_forestIds _ _ h))
          have hnext : w1.host.nextId = (importedNode mkId c w.host.nextId).2 := by
            rw [hhost]
          have ih := importChildren_treeStore mkId hinj rest I w1 P t u d
            (done ++ (importedNode mkId c w.host.nextId).1) base i0 htree1 hP hI
            (by rw [hnext]; omega)
            hbase
            (by
              intro x hx
              rw [forestIds_append] at hx
              rcases List.mem_append.mp hx with hx | hx
              · rcases hdone x hx with ⟨j, hj1, hj2, hj3⟩
                exact ⟨j, hj1, by rw [hnext]; omega, hj3⟩
              · rcases hrange.2 x hx with ⟨j, hj1, hj2, hj3⟩
                exact ⟨j, by omega, by rw [hnext]; exact hj2, hj3⟩)
          simp only [importChildren, hr, importedForest]
          rw [hnext] at ih
          simpa [List.append_assoc] using ih
end

theorem sameShapeForest_append : ∀ (a1 b1 a2 b2 : List Node),
    sameShapeForest a1 b1 = true → sameShapeForest a2 b2 = true →
    sameShapeForest (a1 ++ a2) (b1 ++ b2) = true
  | [], [], _, _, _, h => by simpa using h
  | [], _ :: _, _, _, h, _ => by simp [sameShapeForest] at h
  | _ :: _, [], _, _, h, _ => by simp [sameShapeForest] at h
  | x :: xs, y :: ys, a2, b2, h1, h2 => by
      simp only [sameShapeForest, Bool.and_eq_true] at h1
      simp only [List.cons_append, sameShapeForest, Bool.and_eq_true]
      exact ⟨h1.1, sameShapeForest_append xs ys a2 b2 h1.2 h2⟩

mutual
theorem sameShape_expected_imported (mkId : Nat → String) : ∀ (n : Node) (k : Nat),
    sameShapeForest (expectedNode n) (importedNode mkId n k).1 = true
  | .leaf _ t u _, k => by
      by_cases hu : truthy u = true
      · simp [expectedNode, importedNode, hu, sameShapeForest, sameShape]
      · simp [expectedNode, importedNode, hu, sameShapeForest]
  | .folder _ t _ _ children, k => by
      simp [expectedNode, importedNode, sameShapeForest, sameShape,
        sameShapeForest_expected_imported mkId children (k + 1)]
theorem sameShapeForest_expected_imported (mkId : Nat → String) : ∀ (l : List Node) (k : Nat),
    sameShapeForest (expectedForest l) (importedForest mkId l k).1 = true
  | [], k => by simp [expectedForest, importedForest, sameShapeForest]
  | c :: rest, k => by
      simp only [expectedForest, importedForest]
      exact sameShapeForest_append _ _ _ _ (sameShape_expected_imported mkId c k)
        (sameShapeForest_expected_imported mkId rest _)
end

theorem orElse_of_truthy (t : Option String) (d : String) (h : truthy t = true) :
    some (orElse t d) = t := by
  cases t with
  | none => simp [truthy] at h
  | some x =>
      have hx : ¬ x = "" := by simpa [truthy] using h
      simp [orElse, hx]

mutual
theorem sameShape_original_imported (mkId : Nat → String) : ∀ (n : Node) (k : Nat),
    fullyTitled n = true → sameShapeForest [n] (importedNode mkId n k).1 = true
  | .leaf _ t u _, k, h => by
      simp only [fullyTitled, Bool.and_eq_true] at h
      simp [importedNode, h.2, sameShapeForest, sameShape, orElse_of_truthy t _ h.1]
  | .folder _ t _ _ children, k, h => by
      simp only [fullyTitled, Bool.and_eq_true] at h
      simp [importedNode, sameShapeForest, sameShape, orElse_of_truthy t _ h.1,
        sameShapeForest_original_imported mkId children (k + 1) h.2]
theorem sameShapeForest_original_imported (mkId : Nat → String) :
    ∀ (l : List Node) (k : Nat),
      fullyTitledForest l = true → sameShapeForest l (importedForest mkId l k).1 = true
  | [], k, _ => by simp [importedForest, sameShapeForest]
  | c :: rest, k, h => by
      simp only [fullyTitledForest, Bool.and_eq_true] at h
      simp only [importedForest]
      exact sameShapeForest_append [c] _ rest _ (sameShape_original_imported mkId c k h.1)
        (sameShapeForest_original_imported mkId rest _ h.2)
end

theorem importBookmarks_treeStore (js : Builtins) (clock : Clock) (mkId : Nat → String)
    (hinj : Function.Injective mkId) (w : Popup TreeStore) (importData : ImportData)
    (node : Node) (rest : List Node)
    (hdoc : importData.bookmarks = some (node :: rest))
    (hcur : w.manager.currentFolderId ∈ forestFolderIds w.host.tree)
    (hfresh : ∀ k, w.host.nextId ≤ k → mkId k ∉ forestIds w.host.tree) :
    (importBookmarks js clock (treeStore mkId) (some (some importData)) w).host.tree =
      appendUnderForest w.manager.currentFolderId
        [.folder (mkId w.host.nextId)
          (some ("Imported Bookmarks - " ++ clock.localeDateString)) none none
          (importedNode mkId node (w.host.nextId + 1)).1] w.host.tree ∧
    (importBookmarks js clock (treeStore mkId) (some (some importData)) w).notifications =
      w.notifications ++
        [{ message := "Bookmarks imported successfully!",
           type := NotificationType.success }] := by
  have hI : mkId w.host.nextId ∉ forestIds w.host.tree := hfresh _ (le_refl _)
  have hmem : mkId w.host.nextId ∈ forestFolderIds
      (appendUnderForest w.manager.currentFolderId
        [.folder (mkId w.host.nextId)
          (some ("Imported Bookmarks - " ++ clock.localeDateString)) none none []]
        w.host.tree) :=
    new_folder_mem_appendUnderForest _ _ _ (by simp [forestFolderIds, nodeFolderIds]) _ hcur
  have hfresh1 : ∀ k, w.host.nextId + 1 ≤ k → mkId k ∉ forestIds
      (appendUnderForest w.manager.currentFolderId
        [.folder (mkId w.host.nextId)
          (some ("Imported Bookmarks - " ++ clock.localeDateString)) none none []]
        w.host.tree) := by
    intro k hk hx
    rcases mem_ids_appendUnderForest _ _ _ _ hx with h | h
    · exact hfresh k (by omega) h
    · simp only [forestIds, nodeIds, List.append_nil, List.mem_singleton] at h
      have := hinj h
      omega
  have hA := importBookmarkNode_treeStore mkId hinj node (mkId w.host.nextId)
    { w with
      requests := w.requests ++
        [HostRequest.create
          { parentId := w.manager.currentFolderId,
            title := "Imported Bookmarks - " ++ clock.localeDateString, url := none }],
      host :=
        { tree := appendUnderForest w.manager.currentFolderId
            [.folder (mkId w.host.nextId)
              (some ("Imported Bookmarks - " ++ clock.localeDateString)) none none []]
            w.host.tree,
          nextId := w.host.nextId + 1 } } hmem hfresh1
  have hF := importBookmarkNode_frame (treeStore mkId) node (mkId w.host.nextId)
    { w with
      requests := w.requests ++
        [HostRequest.create
          { parentId := w.manager.currentFolderId,
            title := "Imported Bookmarks - " ++ clock.localeDateString, url := none }],
      host :=
        { tree := appendUnderForest w.manager.currentFolderId
            [.folder (mkId w.host.nextId)
              (some ("Imported Bookmarks - " ++ clock.localeDateString)) none none []]
            w.host.tree,
          nextId := w.host.nextId + 1 } }
  simp only [importBookmarks, hdoc, treeStore_create_folder mkId w.host _ _ hcur, List.head?]
  cases hr : importBookmarkNode (treeStore mkId) node (mkId w.host.nextId)
      { w with
        requests := w.requests ++
          [HostRequest.create
            { parentId := w.manager.currentFolderId,
              title := "Imported Bookmarks - " ++ clock.localeDateString, url := none }],
        host :=
          { tree := appendUnderForest w.manager.currentFolderId
              [.folder (mkId w.host.nextId)
                (some ("Imported Bookmarks - " ++ clock.localeDateString)) none none []]
              w.host.tree,
            nextId := w.host.nextId + 1 } } with
  | mk w3 ok =>
      rw [hr] at hA hF
      obtain ⟨hok, hhost⟩ := hA
      simp only at hok hhost hF
      subst hok
      have hl := loadBookmarks_of_getTree js (treeStore mkId) w3 w3.host.tree rfl
      simp only [showSuccess, showNotification]
      refine ⟨?_, ?_⟩
      · rw [hl.1, hhost]
        have hinto := appendUnderForest_into_new w.manager.currentFolderId
          (mkId w.host.nextId) (some ("Imported Bookmarks - " ++ clock.localeDateString))
          none none [] (importedNode mkId node (w.host.nextId + 1)).1
          (by simp [forestFolderIds]) w.host.tree
          (fun h => hI (folderId_mem_forestIds _ _ h))
        simpa using hinto
      · rw [hl.2.2.2, hF.2]

/-- C6, amended: on a tree-shaped host whose unused ids are fresh and which holds the current
folder, export followed by the import of the exported document appends one new container
folder, titled with the date, to the children of the current folder; the nodes created
under it have the shape of the first root with the same child order, where a folder
keeps its title or gets "Imported Folder" when the title is empty, a leaf with a
non-empty url keeps title and url or gets the title "Imported Bookmark" when it is empty,
and a leaf without url is left out.  When every title and every leaf url of the first
root is non-empty, the created subtree has the shape, titles and urls of the first
root.  Both operations end with their success notification. -/
theorem exportThenImport_round_trip (js : Builtins) (clock : Clock) (mkId : Nat → String)
    (w : Popup TreeStore) (root : Node) (rest : List Node)
    (htree : w.host.tree = root :: rest)
    (hcur : w.manager.currentFolderId ∈ forestFolderIds w.host.tree)
    (hinj : Function.Injective mkId)
    (hfresh : ∀ k, w.host.nextId ≤ k → mkId k ∉ forestIds w.host.tree) :
    ∃ created : List Node,
      (exportThenImport js clock (treeStore mkId) w).host.tree =
        appendUnderForest w.manager.currentFolderId
          [.folder (mkId w.host.nextId)
            (some ("Imported Bookmarks - " ++ clock.localeDateString)) none none created]
          w.host.tree ∧
      sameShapeForest (expectedNode root) created = true ∧
      (fullyTitled root = true → sameShapeForest [root] created = true) ∧
      (exportThenImport js clock (treeStore mkId) w).notifications =
        w.notifications ++
          [{ message := "Bookmarks exported successfully!",
             type := NotificationType.success },
           { message := "Bookmarks imported successfully!",
             type := NotificationType.success }] := by
  have hexp : exportBookmarks clock (treeStore mkId) w =
      { w with
        requests := w.requests ++ [HostRequest.getTree],
        downloads := w.downloads ++
          [{ filename := "bookmarks-export-" ++ isoDay clock ++ ".json",
             content := { version := "1.0", exportDate := clock.isoString,
                          bookmarks := w.host.tree } }],
        notifications := w.notifications ++
          [{ message := "Bookmarks exported successfully!",
             type := NotificationType.success }] } := by
    simp [exportBookmarks, treeStore, showSuccess, showNotification]
  have himp := importBookmarks_treeStore js clock mkId hinj
    { w with
      requests := w.requests ++ [HostRequest.getTree],
      downloads := w.downloads ++
        [{ filename := "bookmarks-export-" ++ isoDay clock ++ ".json",
           content := { version := "1.0", exportDate := clock.isoString,
                        bookmarks := w.host.tree } }],
      notifications := w.notifications ++
        [{ message := "Bookmarks exported successfully!",
           type := NotificationType.success }] }
    (ExportData.reparse { version := "1.0", exportDate := clock.isoString,
                          bookmarks := w.host.tree })
    root rest (by simp [ExportData.reparse, htree]) hcur hfresh
  refine ⟨(importedNode mkId root (w.host.nextId + 1)).1, ?_, ?_, ?_, ?_⟩
  · simp only [exportThenImport, hexp, List.getLast?_concat]
    exact himp.1
  · exact sameShape_expected_imported mkId root _
  · exact fun h => sameShape_original_imported mkId root _ h
  · simp only [exportThenImport, hexp, List.getLast?_concat]
    rw [himp.2]
    simp

theorem digitChar_toNat (m : Nat) (h : m < 10) : (Nat.digitChar m).toNat - 48 = m := by
  interval_cases m <;> rfl

theorem decode_toDigitsCore : ∀ (fuel n : Nat) (ds : List Char), n < fuel →
    decodeDecimal (Nat.toDigitsCore 10 fuel n ds) 0 = decodeDecimal ds n
  | 0, n, ds, h => by omega
  | fuel + 1, n, ds, h => by
      have hd := digitChar_toNat (n % 10) (Nat.mod_lt _ (by decide))
      simp only [Nat.toDigitsCore]
      by_cases h0 : n / 10 = 0
      · simp only [h0, if_true, decodeDecimal, List.foldl_cons, hd]
        have : n % 10 = n := by omega
        simp [this]
      · simp only [h0, if_false]
        rw [decode_toDigitsCore fuel (n / 10) _ (by omega)]
        simp only [decodeDecimal, List.foldl_cons, hd]
        have : 10 * (n / 10) + n % 10 = n := by omega
        rw [this]

theorem decimalId_injective : Function.Injective decimalId := by
  intro a b h
  have ha := decode_toDigitsCore (a + 1) a [] (Nat.lt_succ_self a)
  have hb := decode_toDigitsCore (b + 1) b [] (Nat.lt_succ_self b)
  have h' : Nat.toDigits 10 a = Nat.toDigits 10 b := by
    have := congrArg String.data h
    simpa [decimalId, toString, Nat.repr, List.asString] using this
  simp only [Nat.toDigits] at h'
  rw [h'] at ha
  simpa [decodeDecimal] using ha.symm.trans hb

theorem titledTree_fresh (k : Nat) (hk : 100 ≤ k) : decimalId k ∉ forestIds titledTree := by
  intro hmem
  simp only [titledTree, forestIds, nodeIds, List.append_nil, List.mem_cons,
    List.mem_singleton, List.not_mem_nil, or_false] at hmem
  rcases hmem with h | h
  · have h1 : decimalId 1 = "1" := by decide
    have := decimalId_injective (h.trans h1.symm)
    omega
  · have h5 : decimalId 5 = "5" := by decide
    have := decimalId_injective (h.trans h5.symm)
    omega

theorem exportThenImport_round_trip_witness :
    ∃ created : List Node,
      (exportThenImport plainBuiltins exampleClock (treeStore decimalId)
          titledPopup).host.tree =
        appendUnderForest "1"
          [.folder "100" (some "Imported Bookmarks - 5/1/2024") none none created]
          titledTree ∧
      sameShapeForest titledTree created = true :=
  match exportThenImport_round_trip plainBuiltins exampleClock decimalId titledPopup
      (.folder "1" (some "Bookmarks bar") none none
        [.leaf "5" (some "Docs") (some "https://lean-lang.org") none]) []
      rfl (by decide) decimalId_injective titledTree_fresh with
  | ⟨created, h1, _, h3, _⟩ => ⟨created, h1, h3 (by decide)⟩

end FolderFriend
